import Mathlib

/-!
# Primeflow graph state and history engine: a shallow embedding

This file embeds the core of the `primeflow` node-graph editor in Lean 4 and
proves (or refutes) the specified properties of its graph store
(`src/composables/usePFGraph.ts`), history engine
(`src/composables/usePFHistory.ts`), wheel-zoom viewport math
(`PFGraphSVG`-style component, `handleWheel`) and JSON import gate
(`src/components/PFGraphEditor.vue`, `importGraphFromJSON`).

Modelling notes.

* Numbers are embedded as `ℚ` (the source uses JS numbers; every property
  verified here is exact, none depends on floating-point rounding).

* JavaScript objects have reference semantics.  Almost all object mutation in
  the source replaces top-level record fields, which value semantics renders
  faithfully, with one crucial exception: a node's `properties` object is
  mutated *in place* by `updateNodeProperty` (`node.properties[key] = value`)
  while `exportGraph` copies nodes with a shallow spread
  (`{ ...node, selected: false }`), so exported snapshots share the very same
  `properties` object with the live node.  To capture this, `properties` is
  embedded as an optional *address* into an explicit heap
  (`Heap := Nat → PropMap`); object creation allocates a fresh address and
  in-place mutation writes through the address.  A node's `ports` array is
  also shared by the shallow spread, but no operation in the source ever
  mutates an existing port object or ports array in place (fresh arrays are
  built by `addNode` and `duplicateNode`), so ports are embedded as plain
  values.

* `JSON.parse(JSON.stringify(g))` in `createAction` is a deep clone: it is
  embedded as a copy of the graph in which every reachable `properties`
  object is re-allocated at a fresh address with its *current* heap contents.

* Id generation (`Date.now()` + `Math.random()`) and timestamps are not
  modelled; a store-level counter (`nextId`) produces the generated id
  strings and timestamps are fixed to `0`.  No verified property depends on
  the concrete text of a generated id.
-/

namespace Primeflow

/-- A JSON-representable property value (`properties: Record<string, any>` in
the source; the verified properties only ever store strings, numbers and
booleans in it). -/
inductive PValue where
  | str (s : String)
  | num (q : ℚ)
  | bool (b : Bool)
deriving DecidableEq, Repr

/-- A JS object used as a property bag: insertion-ordered key/value pairs. -/
abbrev PropMap := List (String × PValue)

/-- `obj[key] = v`: replace the value in place if the key exists, otherwise
append the new key at the end (JS object insertion order). -/
def propSet (m : PropMap) (k : String) (v : PValue) : PropMap :=
  if m.any (fun kv => kv.1 == k) then
    m.map (fun kv => if kv.1 == k then (k, v) else kv)
  else
    m ++ [(k, v)]

/-- Heap addresses for shared `properties` objects. -/
abbrev Addr := Nat

/-- The heap of `properties` objects.  Addresses ever handed out are below the
store's `nextAddr`; unallocated cells are never read by the source. -/
abbrev Heap := Addr → PropMap

/-- Write one heap cell. -/
def heapSet (h : Heap) (a : Addr) (m : PropMap) : Heap :=
  fun b => if b = a then m else h b

/-- `PFPort` (from `types.ts` as used by `usePFGraph.ts`): a typed,
directional connection point.  The direction field is literally called
`type` in the source (`'input' | 'output'`). -/
structure PFPort where
  id : String
  name : String
  type : String
  dataType : String
  required : Bool
deriving DecidableEq, Repr

/-- `PFNode` as stored in `state.graph.nodes`.  `properties` is an optional
address of a shared property object (see the heap discussion above);
`width`, `height` and `image` are optional in the source. -/
structure PFNode where
  id : String
  type : String
  title : String
  x : ℚ
  y : ℚ
  width : Option ℚ
  height : Option ℚ
  image : Option String
  ports : List PFPort
  properties : Option Addr
  selected : Bool
deriving DecidableEq, Repr

/-- `PFEdge`: a directed connection between two ports. -/
structure PFEdge where
  id : String
  sourceNodeId : String
  sourcePortId : String
  targetNodeId : String
  targetPortId : String
  selected : Bool
deriving DecidableEq, Repr

/-- `PFGraphConfig` (`DEFAULT_CONFIG` merges `maxNodes`, `maxEdges` and
`nodeDefaults`). -/
structure PFGraphConfig where
  maxNodes : Nat
  maxEdges : Nat
  nodeDefaultWidth : ℚ
  nodeDefaultHeight : ℚ
deriving DecidableEq, Repr

/-- The built-in defaults: 100 nodes, 200 edges, 120×80 node size. -/
def defaultConfig : PFGraphConfig :=
  { maxNodes := 100, maxEdges := 200, nodeDefaultWidth := 120, nodeDefaultHeight := 80 }

/-- `PFGraph`: the serializable graph shape (`nodes`, `edges`, `config`). -/
structure PFGraph where
  nodes : List PFNode
  edges : List PFEdge
  config : PFGraphConfig
deriving DecidableEq, Repr

/-! ## The history engine (`usePFHistory.ts`) -/

/-- `PFHistoryAction`: a recorded action with full before/after graph
snapshots.  The timestamp is fixed to `0` (wall clock not modelled). -/
structure PFHistoryAction where
  id : String
  type : String
  timestamp : Nat
  beforeState : PFGraph
  afterState : PFGraph
  description : String
deriving DecidableEq, Repr

/-- `PFHistoryState`: the two bounded stacks plus the replay flags.
Stacks are lists whose *last* element is the most recent action (JS `push`
appends at the end, `shift` evicts at the front). -/
structure PFHistoryState where
  undoStack : List PFHistoryAction
  redoStack : List PFHistoryAction
  maxStackSize : Nat
  isUndoing : Bool
  isRedoing : Bool
deriving DecidableEq, Repr

/-- The state of a fresh `usePFHistory(maxStackSize)` composable
(`DEFAULT_MAX_STACK_SIZE = 20`). -/
def histInit (maxStackSize : Nat := 20) : PFHistoryState :=
  { undoStack := [], redoStack := [], maxStackSize := maxStackSize,
    isUndoing := false, isRedoing := false }

/-- Computed `canUndo`: a non-empty undo stack and no replay in progress. -/
def canUndo (st : PFHistoryState) : Bool :=
  decide (0 < st.undoStack.length) && !st.isUndoing && !st.isRedoing

/-- Computed `canRedo`. -/
def canRedo (st : PFHistoryState) : Bool :=
  decide (0 < st.redoStack.length) && !st.isUndoing && !st.isRedoing

/-- `pushAction`: ignored entirely during replay; otherwise push onto the
undo stack, evict the oldest entry if the stack now exceeds capacity, and
clear the redo stack. -/
def pushAction (st : PFHistoryState) (action : PFHistoryAction) : PFHistoryState :=
  if st.isUndoing || st.isRedoing then st
  else
    let u := st.undoStack ++ [action]
    let u := if st.maxStackSize < u.length then u.tail else u
    { st with undoStack := u, redoStack := [] }

/-- `undo()` of the history module: pop the most recent action from the undo
stack, move it to the redo stack (evicting the redo stack's oldest entry when
over capacity), and hand the action back to the caller.  The `isUndoing` flag
is set only for the duration of the stack manipulation and is false again in
the returned state. -/
def histUndo (st : PFHistoryState) : Option PFHistoryAction × PFHistoryState :=
  if canUndo st then
    match st.undoStack.getLast? with
    | none => (none, st)
    | some action =>
      let r := st.redoStack ++ [action]
      let r := if st.maxStackSize < r.length then r.tail else r
      (some action, { st with undoStack := st.undoStack.dropLast, redoStack := r })
  else (none, st)

/-- `redo()` of the history module, symmetric to `histUndo`. -/
def histRedo (st : PFHistoryState) : Option PFHistoryAction × PFHistoryState :=
  if canRedo st then
    match st.redoStack.getLast? with
    | none => (none, st)
    | some action =>
      let u := st.undoStack ++ [action]
      let u := if st.maxStackSize < u.length then u.tail else u
      (some action, { st with undoStack := u, redoStack := st.redoStack.dropLast })
  else (none, st)

/-- `clearHistory()`: empty both stacks unconditionally. -/
def clearHistory (st : PFHistoryState) : PFHistoryState :=
  { st with undoStack := [], redoStack := [] }

/-! ## The graph store (`usePFGraph.ts`) -/

/-- The reactive state owned by `usePFGraph`, together with the heap of
shared `properties` objects and the id/address generators. -/
structure PFGraphStore where
  graph : PFGraph
  selectedNodes : List String
  selectedEdges : List String
  history : PFHistoryState
  heap : Heap
  nextAddr : Addr
  nextId : Nat

/-- `getNode`: first node with the given id. -/
def getNode (s : PFGraphStore) (nodeId : String) : Option PFNode :=
  s.graph.nodes.find? (fun n => n.id == nodeId)

/-- `getEdge`: first edge with the given id. -/
def getEdge (s : PFGraphStore) (edgeId : String) : Option PFEdge :=
  s.graph.edges.find? (fun e => e.id == edgeId)

/-- Apply `f` to the first node with the given id (the source obtains a live
reference via `getNode`/`find` and mutates it in place, which touches exactly
the first match). -/
def updateFirstNode (nodes : List PFNode) (nodeId : String) (f : PFNode → PFNode) :
    List PFNode :=
  match nodes with
  | [] => []
  | n :: rest =>
    if n.id == nodeId then f n :: rest
    else n :: updateFirstNode rest nodeId f

/-- Apply `f` to the first edge with the given id. -/
def updateFirstEdge (edges : List PFEdge) (edgeId : String) (f : PFEdge → PFEdge) :
    List PFEdge :=
  match edges with
  | [] => []
  | e :: rest =>
    if e.id == edgeId then f e :: rest
    else e :: updateFirstEdge rest edgeId f

/-- `clearSelection()`: clear the mirrored `selected` flag of every selected
node and edge, then empty both selection lists. -/
def clearSelection (s : PFGraphStore) : PFGraphStore :=
  let nodes := s.selectedNodes.foldl
    (fun acc nodeId => updateFirstNode acc nodeId (fun n => { n with selected := false }))
    s.graph.nodes
  let edges := s.selectedEdges.foldl
    (fun acc edgeId => updateFirstEdge acc edgeId (fun e => { e with selected := false }))
    s.graph.edges
  { s with graph := { s.graph with nodes := nodes, edges := edges },
           selectedNodes := [], selectedEdges := [] }

/-- `deselectNode`: remove the id from the selection (first occurrence, via
`indexOf`/`splice`) and clear the node's mirrored flag if the node exists. -/
def deselectNode (s : PFGraphStore) (nodeId : String) : PFGraphStore :=
  if nodeId ∈ s.selectedNodes then
    { s with
        selectedNodes := s.selectedNodes.erase nodeId,
        graph := { s.graph with
          nodes := updateFirstNode s.graph.nodes nodeId (fun n => { n with selected := false }) } }
  else s

/-- `exportGraph()`: map every node and edge through a *shallow* spread that
forces `selected := false`.  Nested `ports` and `properties` are shared with
the live objects — for `properties` this shows as the exported node carrying
the same heap address as the live node. -/
def exportGraph (s : PFGraphStore) : PFGraph :=
  { nodes := s.graph.nodes.map (fun n => { n with selected := false }),
    edges := s.graph.edges.map (fun e => { e with selected := false }),
    config := s.graph.config }

/-- `loadGraph(graph)`: wholesale replacement of the graph, keeping the
store's own `config` (`state.graph = { ...graph, config }`), followed by
`clearSelection()` (which runs against the freshly installed graph). -/
def loadGraph (s : PFGraphStore) (g : PFGraph) : PFGraphStore :=
  clearSelection
    { s with graph := { nodes := g.nodes, edges := g.edges, config := s.graph.config } }

/-- The deep clone `JSON.parse(JSON.stringify(nodes))` inside `createAction`:
every node whose `properties` points at a heap cell gets a fresh address
holding a copy of the cell's *current* contents.  Returns the cloned nodes,
the extended heap and the next free address. -/
def cloneNodes (nodes : List PFNode) (h : Heap) (nx : Addr) :
    List PFNode × Heap × Addr :=
  match nodes with
  | [] => ([], h, nx)
  | n :: rest =>
    match n.properties with
    | none =>
      let (ns, h1, nx1) := cloneNodes rest h nx
      (n :: ns, h1, nx1)
    | some a =>
      let (ns, h1, nx1) := cloneNodes rest (heapSet h nx (h a)) (nx + 1)
      ({ n with properties := some nx } :: ns, h1, nx1)

/-- Deep clone of a whole graph snapshot (edges and config are flat records,
copied by value). -/
def cloneGraph (g : PFGraph) (h : Heap) (nx : Addr) : PFGraph × Heap × Addr :=
  let (ns, h1, nx1) := cloneNodes g.nodes h nx
  ({ g with nodes := ns }, h1, nx1)

/-- `history.recordAction(type, before, after, description)`: build the
action via `createAction` (deep-cloning both snapshots against the current
heap) and push it with `pushAction`. -/
def recordAction (s : PFGraphStore) (ty : String) (before after : PFGraph)
    (description : String) : PFGraphStore :=
  let (b, h1, nx1) := cloneGraph before s.heap s.nextAddr
  let (a, h2, nx2) := cloneGraph after h1 nx1
  let action : PFHistoryAction :=
    { id := "action_" ++ toString s.nextId, type := ty, timestamp := 0,
      beforeState := b, afterState := a, description := description }
  { s with heap := h2, nextAddr := nx2, nextId := s.nextId + 1,
           history := pushAction s.history action }

/-- A port as supplied to `addNode` (its `id` may be absent, in which case a
fresh one is generated; JS also regenerates on the empty string since
`port.id || gen` tests truthiness). -/
structure PFPortInput where
  id : Option String
  name : String
  type : String
  dataType : String
  required : Bool
deriving DecidableEq, Repr

/-- Assign ids to input ports (`port.id || generated`), threading the id
counter. -/
def assignPortIds (ports : List PFPortInput) (k : Nat) : List PFPort × Nat :=
  match ports with
  | [] => ([], k)
  | p :: rest =>
    match p.id with
    | some pid =>
      if pid == "" then
        let (ps, k1) := assignPortIds rest (k + 1)
        ({ id := "port_" ++ toString k, name := p.name, type := p.type,
           dataType := p.dataType, required := p.required } :: ps, k1)
      else
        let (ps, k1) := assignPortIds rest k
        ({ id := pid, name := p.name, type := p.type,
           dataType := p.dataType, required := p.required } :: ps, k1)
    | none =>
      let (ps, k1) := assignPortIds rest (k + 1)
      ({ id := "port_" ++ toString k, name := p.name, type := p.type,
         dataType := p.dataType, required := p.required } :: ps, k1)

/-- The argument of `addNode` (`Omit<PFNode, 'id'>`): the caller may pass a
`selected` flag (overridden to `false`) and a property bag, for which the
store ends up holding a fresh object. -/
structure PFNodeInput where
  type : String
  title : String
  x : ℚ
  y : ℚ
  width : Option ℚ
  height : Option ℚ
  image : Option String
  ports : List PFPortInput
  properties : Option PropMap
  selected : Bool
deriving DecidableEq, Repr

/-- `addNode`: reject when the node count has reached `maxNodes`; otherwise
generate a fresh id, give every port an id, append the node and record an
`add_node` action from before/after exports. -/
def addNode (s : PFGraphStore) (node : PFNodeInput) : Option String × PFGraphStore :=
  if s.graph.nodes.length < s.graph.config.maxNodes then
    let before := exportGraph s
    let id := "node_" ++ toString s.nextId
    let (ports, k) := assignPortIds node.ports (s.nextId + 1)
    let (props, heap, nx) :=
      match node.properties with
      | none => (none, s.heap, s.nextAddr)
      | some m => (some s.nextAddr, heapSet s.heap s.nextAddr m, s.nextAddr + 1)
    let newNode : PFNode :=
      { id := id, type := node.type, title := node.title, x := node.x, y := node.y,
        width := node.width, height := node.height, image := node.image,
        ports := ports, properties := props, selected := false }
    let s1 := { s with
      graph := { s.graph with nodes := s.graph.nodes ++ [newNode] },
      heap := heap, nextAddr := nx, nextId := k }
    let after := exportGraph s1
    (some id, recordAction s1 "add_node" before after ("Add node " ++ node.title))
  else (none, s)

/-- `removeNode`: remove the node, every edge touching it and its selection
entry, recording one combined `remove_node` action. -/
def removeNode (s : PFGraphStore) (nodeId : String) : Bool × PFGraphStore :=
  match s.graph.nodes.findIdx? (fun n => n.id == nodeId) with
  | none => (false, s)
  | some i =>
    let before := exportGraph s
    let title := ((s.graph.nodes.get? i).map (fun n => n.title)).getD ""
    let s1 := { s with graph := { s.graph with
      edges := s.graph.edges.filter
        (fun e => !(e.sourceNodeId == nodeId) && !(e.targetNodeId == nodeId)),
      nodes := s.graph.nodes.eraseIdx i } }
    let s2 := deselectNode s1 nodeId
    let after := exportGraph s2
    (true, recordAction s2 "remove_node" before after ("Remove node " ++ title))

/-- A partial node update as passed to `updateNode` (the source accepts any
`Partial<Omit<PFNode,'id'>>` and merges it with `Object.assign`; the fields
exercised by the verified properties are position, title and size). -/
structure PFNodeUpdate where
  x : Option ℚ
  y : Option ℚ
  title : Option String
  width : Option ℚ
  height : Option ℚ
deriving DecidableEq, Repr

/-- `Object.assign(node, updates)` restricted to the modelled fields. -/
def applyNodeUpdate (n : PFNode) (u : PFNodeUpdate) : PFNode :=
  { n with
      x := u.x.getD n.x, y := u.y.getD n.y,
      title := u.title.getD n.title,
      width := if u.width.isSome then u.width else n.width,
      height := if u.height.isSome then u.height else n.height }

/-- `updateNode`: merge the update into the node; record a `move_node` action
only when the update carries `x` or `y` (deliberate policy of the source). -/
def updateNode (s : PFGraphStore) (nodeId : String) (u : PFNodeUpdate) :
    Bool × PFGraphStore :=
  match getNode s nodeId with
  | none => (false, s)
  | some n =>
    let before := exportGraph s
    let s1 := { s with graph := { s.graph with
      nodes := updateFirstNode s.graph.nodes nodeId (fun m => applyNodeUpdate m u) } }
    let after := exportGraph s1
    if u.x.isSome || u.y.isSome then
      (true, recordAction s1 "move_node" before after ("Move node " ++ n.title))
    else (true, s1)

/-- The argument of `addEdge` (`Omit<PFEdge, 'id'>`). -/
structure PFEdgeInput where
  sourceNodeId : String
  sourcePortId : String
  targetNodeId : String
  targetPortId : String
  selected : Bool
deriving DecidableEq, Repr

/-- The distinct rejection branches of `addEdge`, one per `console.warn`
message of the source, in source order. -/
inductive AddEdgeError where
  | limitExceeded
  | nodeNotFound
  | portNotFound
  | directionMismatch
  | duplicateEdge
deriving DecidableEq, Repr

/-- Outcome of running `addEdge`'s body: either the branch that rejected the
edge or the appended edge's id together with the updated store. -/
inductive AddEdgeOutcome where
  | rejected (reason : AddEdgeError)
  | added (id : String) (s : PFGraphStore)

/-- The body of `addEdge`, with its validation chain in source order:
edge-count limit, endpoint node existence, endpoint port existence, port
direction (`source.type == 'output'`, `target.type == 'input'`), duplicate
tuple; only on full success is the edge appended and an `add_edge` action
recorded. -/
def addEdgeRun (s : PFGraphStore) (edge : PFEdgeInput) : AddEdgeOutcome :=
  if s.graph.edges.length < s.graph.config.maxEdges then
    match getNode s edge.sourceNodeId, getNode s edge.targetNodeId with
    | some sourceNode, some targetNode =>
      match sourceNode.ports.find? (fun p => p.id == edge.sourcePortId),
            targetNode.ports.find? (fun p => p.id == edge.targetPortId) with
      | some sourcePort, some targetPort =>
        if !(sourcePort.type == "output") || !(targetPort.type == "input") then
          .rejected .directionMismatch
        else if s.graph.edges.any (fun e =>
            e.sourceNodeId == edge.sourceNodeId && e.sourcePortId == edge.sourcePortId &&
            e.targetNodeId == edge.targetNodeId && e.targetPortId == edge.targetPortId) then
          .rejected .duplicateEdge
        else
          let before := exportGraph s
          let id := "edge_" ++ toString s.nextId
          let newEdge : PFEdge :=
            { id := id, sourceNodeId := edge.sourceNodeId, sourcePortId := edge.sourcePortId,
              targetNodeId := edge.targetNodeId, targetPortId := edge.targetPortId,
              selected := false }
          let s1 := { s with
            graph := { s.graph with edges := s.graph.edges ++ [newEdge] },
            nextId := s.nextId + 1 }
          let after := exportGraph s1
          .added id (recordAction s1 "add_edge" before after "Add edge")
      | _, _ => .rejected .portNotFound
    | _, _ => .rejected .nodeNotFound
  else .rejected .limitExceeded

/-- `addEdge` as seen by callers: `string | null`, the store untouched on any
rejection. -/
def addEdge (s : PFGraphStore) (edge : PFEdgeInput) : Option String × PFGraphStore :=
  match addEdgeRun s edge with
  | .rejected _ => (none, s)
  | .added id s1 => (some id, s1)

/-- `removeEdge`: silently ignore an unknown id; otherwise remove the edge,
record a `remove_edge` action and then drop the id from the edge selection if
present (`indexOf`/`splice`, i.e. the first occurrence). -/
def removeEdge (s : PFGraphStore) (edgeId : String) : PFGraphStore :=
  match s.graph.edges.findIdx? (fun e => e.id == edgeId) with
  | none => s
  | some i =>
    let before := exportGraph s
    let s1 := { s with graph := { s.graph with edges := s.graph.edges.eraseIdx i } }
    let after := exportGraph s1
    let s2 := recordAction s1 "remove_edge" before after "Remove edge"
    if s2.selectedEdges.contains edgeId then
      { s2 with selectedEdges := s2.selectedEdges.erase edgeId }
    else s2

/-- `updateNodeProperty`: `node.properties[propertyKey] = value` through the
shared reference, creating the property object first when the node has none
(`if (!node.properties) node.properties = {}`).  The before snapshot is
exported *before* the write but deep-cloned only inside `recordAction`,
*after* the write — so when the node already had a property object (shared
with the exported snapshot) the recorded before state carries the new
value. -/
def updateNodeProperty (s : PFGraphStore) (nodeId propertyKey : String) (value : PValue) :
    Bool × PFGraphStore :=
  match getNode s nodeId with
  | none => (false, s)
  | some n =>
    let before := exportGraph s
    let (addr, s1) :=
      match n.properties with
      | some a => (a, s)
      | none =>
        let a := s.nextAddr
        (a, { s with
          heap := heapSet s.heap a [], nextAddr := a + 1,
          graph := { s.graph with
            nodes := updateFirstNode s.graph.nodes nodeId
              (fun m => { m with properties := some a }) } })
    let s2 := { s1 with heap := heapSet s1.heap addr (propSet (s1.heap addr) propertyKey value) }
    let after := exportGraph s2
    (true, recordAction s2 "update_property" before after ("Update property " ++ propertyKey))

/-- `updateNodeImage`: set the node's `image` field and record an
`update_property` action. -/
def updateNodeImage (s : PFGraphStore) (nodeId imageUrl : String) : Bool × PFGraphStore :=
  match getNode s nodeId with
  | none => (false, s)
  | some n =>
    let before := exportGraph s
    let s1 := { s with graph := { s.graph with
      nodes := updateFirstNode s.graph.nodes nodeId (fun m => { m with image := some imageUrl }) } }
    let after := exportGraph s1
    (true, recordAction s1 "update_property" before after ("Update image of node " ++ n.title))

/-- `duplicateNode`: clone the node (fresh copy of its property bag, fresh
port ids, title suffixed with " (Copy)", position offset by +20/+20), insert
it through `addNode`, then relabel the action `addNode` just pushed as a
`duplicate_node` action.  The `Date.now()` suffix of the cloned port ids is
modelled as `0`. -/
def duplicateNode (s : PFGraphStore) (nodeId : String) : Option String × PFGraphStore :=
  match getNode s nodeId with
  | none => (none, s)
  | some orig =>
    let dup : PFNodeInput :=
      { type := orig.type, title := orig.title ++ " (Copy)",
        x := orig.x + 20, y := orig.y + 20,
        width := orig.width, height := orig.height, image := orig.image,
        ports := orig.ports.map (fun p =>
          { id := some (p.id ++ "_copy_0"), name := p.name, type := p.type,
            dataType := p.dataType, required := p.required }),
        properties := orig.properties.map (fun a => s.heap a),
        selected := orig.selected }
    let (newNodeId, s1) := addNode s dup
    match newNodeId with
    | none => (none, s1)
    | some nid =>
      match s1.history.undoStack.getLast? with
      | none => (some nid, s1)
      | some lastAction =>
        let relabeled := { lastAction with
          description := "Duplicate node " ++ orig.title, type := "duplicate_node" }
        (some nid, { s1 with history := { s1.history with
          undoStack := s1.history.undoStack.dropLast ++ [relabeled] } })

/-- Remove the first node with the given id (`findIndex` + `splice`). -/
def eraseFirstNodeById (nodes : List PFNode) (nodeId : String) : List PFNode :=
  match nodes.findIdx? (fun n => n.id == nodeId) with
  | none => nodes
  | some i => nodes.eraseIdx i

/-- `deleteSelectedNodes`: no-op on an empty selection; otherwise drop every
edge touching a selected node, remove the selected nodes, clear the
selection, and record one combined `delete_selected` action. -/
def deleteSelectedNodes (s : PFGraphStore) : PFGraphStore :=
  let selectedNodeIds := s.selectedNodes
  if selectedNodeIds.isEmpty then s
  else
    let before := exportGraph s
    let s1 := { s with graph := { s.graph with
      edges := s.graph.edges.filter (fun e =>
        !(selectedNodeIds.contains e.sourceNodeId) &&
        !(selectedNodeIds.contains e.targetNodeId)),
      nodes := selectedNodeIds.foldl eraseFirstNodeById s.graph.nodes } }
    let s2 := clearSelection s1
    let after := exportGraph s2
    recordAction s2 "delete_selected" before after "Delete selected nodes"

/-- Store-level `undo()`: ask the history module for the most recent action
and apply its before snapshot with `loadGraph`. -/
def storeUndo (s : PFGraphStore) : Bool × PFGraphStore :=
  let (action, h1) := histUndo s.history
  match action with
  | none => (false, { s with history := h1 })
  | some act => (true, loadGraph { s with history := h1 } act.beforeState)

/-- Store-level `redo()`: apply the after snapshot of the action handed back
by the history module. -/
def storeRedo (s : PFGraphStore) : Bool × PFGraphStore :=
  let (action, h1) := histRedo s.history
  match action with
  | none => (false, { s with history := h1 })
  | some act => (true, loadGraph { s with history := h1 } act.afterState)

/-! ## Viewport wheel zoom (`handleWheel` in the graph SVG component) -/

/-- The pan/zoom viewport: world-space origin and size of the visible window
plus the zoom scale. -/
structure Viewport where
  x : ℚ
  y : ℚ
  width : ℚ
  height : ℚ
  scale : ℚ
deriving DecidableEq, Repr

/-- The world coordinates of a screen-space point under a viewport, as
computed at the top of `handleWheel`:
`world = viewport.origin + (mouse / canvasSize) * viewport.size`. -/
def screenToWorldX (v : Viewport) (canvasWidth mouseX : ℚ) : ℚ :=
  v.x + (mouseX / canvasWidth) * v.width

/-- The `y` direction of `screenToWorldX`. -/
def screenToWorldY (v : Viewport) (canvasHeight mouseY : ℚ) : ℚ :=
  v.y + (mouseY / canvasHeight) * v.height

/-- One wheel step of `handleWheel` with `zoomFactor = 1.1`: convert the
cursor to world coordinates with the current viewport, rescale
width/height/scale (dividing the sizes when zooming in, `deltaY < 0`), then
recompute the origin so the world point under the cursor stays under the
cursor: `x = worldX - (mouseX / canvasWidth) * newWidth`. -/
def handleWheel (v : Viewport) (canvasWidth canvasHeight mouseX mouseY deltaY : ℚ) :
    Viewport :=
  let zoomFactor : ℚ := 11 / 10
  let worldX := screenToWorldX v canvasWidth mouseX
  let worldY := screenToWorldY v canvasHeight mouseY
  let (w, h, sc) :=
    if deltaY < 0 then (v.width / zoomFactor, v.height / zoomFactor, v.scale * zoomFactor)
    else (v.width * zoomFactor, v.height * zoomFactor, v.scale / zoomFactor)
  { x := worldX - (mouseX / canvasWidth) * w,
    y := worldY - (mouseY / canvasHeight) * h,
    width := w, height := h, scale := sc }

/-! ## JSON import (`importGraphFromJSON` in `PFGraphEditor.vue`) -/

/-- A parsed JSON document. -/
inductive Json where
  | null
  | bool (b : Bool)
  | num (q : ℚ)
  | str (s : String)
  | arr (elems : List Json)
  | obj (fields : List (String × Json))

/-- Field access `doc[key]` on parsed JSON: only objects have fields
(`undefined` on everything else; accessing a member of `null` throws, which
the surrounding `catch` turns into the same rejection). -/
def Json.getField : Json → String → Option Json
  | .obj fields, key => (fields.find? (fun kv => kv.1 == key)).map (fun kv => kv.2)
  | _, _ => none

/-- JS truthiness of a JSON value (`null`, `false`, `0`, `""` are falsy). -/
def Json.truthy : Json → Bool
  | .null => false
  | .bool b => b
  | .num q => !(q == 0)
  | .str s => !(s == "")
  | .arr _ => true
  | .obj _ => true

/-- Truthiness of `doc[key]` (`undefined` is falsy). -/
def truthyField (doc : Json) (key : String) : Bool :=
  match doc.getField key with
  | none => false
  | some v => v.truthy

/-- The import gate of `importGraphFromJSON`:
`!graphData.nodes || !graphData.edges || !graphData.config` throws, and a
parse failure (`parsed = none`) lands in the same `catch`. -/
def importAccepted (parsed : Option Json) : Bool :=
  match parsed with
  | none => false
  | some doc => truthyField doc "nodes" && truthyField doc "edges" && truthyField doc "config"

/-- Decode one JSON port object into a `PFPort` (fields the source reads;
absent fields fall back to defaults — JS would store `undefined`). -/
def decodePort (j : Json) : PFPort :=
  { id := match j.getField "id" with | some (.str s) => s | _ => ""
    name := match j.getField "name" with | some (.str s) => s | _ => ""
    type := match j.getField "type" with | some (.str s) => s | _ => ""
    dataType := match j.getField "dataType" with | some (.str s) => s | _ => ""
    required := match j.getField "required" with | some (.bool b) => b | _ => false }

/-- Decode a JSON property value. -/
def decodePValue (j : Json) : PValue :=
  match j with
  | .str s => .str s
  | .num q => .num q
  | .bool b => .bool b
  | _ => .str ""

/-- Decode one JSON node object, allocating a heap cell when it carries a
`properties` object. -/
def decodeNode (j : Json) (h : Heap) (nx : Addr) : PFNode × Heap × Addr :=
  let (props, h1, nx1) :=
    match j.getField "properties" with
    | some (.obj fields) =>
      (some nx, heapSet h nx (fields.map (fun kv => (kv.1, decodePValue kv.2))), nx + 1)
    | _ => (none, h, nx)
  ({ id := match j.getField "id" with | some (.str s) => s | _ => ""
     type := match j.getField "type" with | some (.str s) => s | _ => ""
     title := match j.getField "title" with | some (.str s) => s | _ => ""
     x := match j.getField "x" with | some (.num q) => q | _ => 0
     y := match j.getField "y" with | some (.num q) => q | _ => 0
     width := match j.getField "width" with | some (.num q) => some q | _ => none
     height := match j.getField "height" with | some (.num q) => some q | _ => none
     image := match j.getField "image" with | some (.str s) => some s | _ => none
     ports := match j.getField "ports" with
       | some (.arr elems) => elems.map decodePort
       | _ => []
     properties := props
     selected := match j.getField "selected" with | some (.bool b) => b | _ => false },
   h1, nx1)

/-- Decode the `nodes` array of an accepted document. -/
def decodeNodes (elems : List Json) (h : Heap) (nx : Addr) : List PFNode × Heap × Addr :=
  match elems with
  | [] => ([], h, nx)
  | j :: rest =>
    let (n, h1, nx1) := decodeNode j h nx
    let (ns, h2, nx2) := decodeNodes rest h1 nx1
    (n :: ns, h2, nx2)

/-- Decode one JSON edge object. -/
def decodeEdge (j : Json) : PFEdge :=
  { id := match j.getField "id" with | some (.str s) => s | _ => ""
    sourceNodeId := match j.getField "sourceNodeId" with | some (.str s) => s | _ => ""
    sourcePortId := match j.getField "sourcePortId" with | some (.str s) => s | _ => ""
    targetNodeId := match j.getField "targetNodeId" with | some (.str s) => s | _ => ""
    targetPortId := match j.getField "targetPortId" with | some (.str s) => s | _ => ""
    selected := match j.getField "selected" with | some (.bool b) => b | _ => false }

/-- Decode a document's payload into the typed graph slot.  Array payloads
decode element-wise; a truthy *non-array* payload (which `state.graph`
nevertheless stores verbatim in JS) has no `List`-typed counterpart and
decodes to `[]` — this placeholder stands for "the slot was replaced with a
non-graph value".  Whether such a payload makes the import throw is decided
separately, on the raw field shape (`jsonFieldIsArray`), inside
`importGraphFromJSON` — the decode never influences that control flow.  The
document's own `config` is replaced by the store's config in
`state.graph = { ...graphData, config }`, so only the store's config is
carried. -/
def decodeGraphDoc (doc : Json) (h : Heap) (nx : Addr) (cfg : PFGraphConfig) :
    PFGraph × Heap × Addr :=
  let (ns, h1, nx1) :=
    match doc.getField "nodes" with
    | some (.arr elems) => decodeNodes elems h nx
    | _ => ([], h, nx)
  ({ nodes := ns,
     edges := match doc.getField "edges" with
       | some (.arr elems) => elems.map decodeEdge
       | _ => []
     config := cfg }, h1, nx1)

/-- Whether `doc[key]` is a JSON array.  A truthy non-array payload passes
the import gate, but `Array.prototype.find` does not exist on it, so the
selection lookups inside `clearSelection` throw a `TypeError` on it. -/
def jsonFieldIsArray (doc : Json) (key : String) : Bool :=
  match doc.getField key with
  | some (.arr _) => true
  | _ => false

/-- `importGraphFromJSON`, modelled on the parsed document (`none` when
`JSON.parse` threw).  A document missing any of `nodes`, `edges`, `config`
(or otherwise falsy there) throws before `loadGraph`, so the `catch` leaves
graph and history untouched.  An accepted document runs
`loadGraph(graphData)`, which *first* installs
`state.graph = { ...graphData, config }` and *then* calls
`clearSelection()`.  `clearSelection` iterates the still-current selection
lists and resolves each id with `state.graph.nodes.find(...)` (first the
node pass, then `selectedNodes.length = 0`, then the edge pass with
`state.graph.edges.find(...)`): on a truthy non-array payload the `find`
call throws a `TypeError` that lands in the import's `catch` — the graph
stays replaced, the not-yet-cleared selection lists stay, and
`clearHistory()` never runs.  (A further abort path of the same family — a
`null` element inside an array payload evaluated by a selection lookup
before a match — is not modelled; it could only abort additional imports of
this malformed kind, and no verified property relies on those inputs
completing.)  Only when neither pass throws does `clearHistory()` follow. -/
def importGraphFromJSON (parsed : Option Json) (s : PFGraphStore) : PFGraphStore :=
  match parsed with
  | none => s
  | some doc =>
    if truthyField doc "nodes" && truthyField doc "edges" && truthyField doc "config" then
      let (g, h1, nx1) := decodeGraphDoc doc s.heap s.nextAddr s.graph.config
      if jsonFieldIsArray doc "nodes" = false ∧ s.selectedNodes ≠ [] then
        -- TypeError in the node pass of `clearSelection`, on its first lookup:
        -- the graph was already replaced, nothing of the selection was cleared,
        -- and the history was not cleared.
        { s with
            graph := { nodes := g.nodes, edges := g.edges, config := s.graph.config },
            heap := h1, nextAddr := nx1 }
      else if jsonFieldIsArray doc "edges" = false ∧ s.selectedEdges ≠ [] then
        -- TypeError in the edge pass: the node pass already cleared the mirrored
        -- node flags and emptied `selectedNodes`; the edge selection and the
        -- history survive.
        let clearedNodes := s.selectedNodes.foldl
          (fun acc nodeId => updateFirstNode acc nodeId (fun n => { n with selected := false }))
          g.nodes
        { s with
            graph := { nodes := clearedNodes, edges := g.edges, config := s.graph.config },
            selectedNodes := [],
            heap := h1, nextAddr := nx1 }
      else
        let s1 := loadGraph { s with heap := h1, nextAddr := nx1 } g
        { s1 with history := clearHistory s1.history }
    else s

/-! ## Value views: resolving shared property objects

Structural (value) equality of two graphs is judged after dereferencing the
`properties` addresses through the respective heaps; equality "modulo
selected normalization" additionally forces every `selected` flag to
`false`. -/

/-- A node with its property bag resolved to a value. -/
structure PFValueNode where
  id : String
  type : String
  title : String
  x : ℚ
  y : ℚ
  width : Option ℚ
  height : Option ℚ
  image : Option String
  ports : List PFPort
  properties : Option PropMap
  selected : Bool
deriving DecidableEq, Repr

/-- A fully resolved graph value. -/
structure PFValueGraph where
  nodes : List PFValueNode
  edges : List PFEdge
  config : PFGraphConfig
deriving DecidableEq, Repr

/-- Resolve one node against a heap. -/
def resolveNode (h : Heap) (n : PFNode) : PFValueNode :=
  { id := n.id, type := n.type, title := n.title, x := n.x, y := n.y,
    width := n.width, height := n.height, image := n.image, ports := n.ports,
    properties := n.properties.map h, selected := n.selected }

/-- Resolve a whole graph against a heap. -/
def resolveGraph (h : Heap) (g : PFGraph) : PFValueGraph :=
  { nodes := g.nodes.map (resolveNode h),
    edges := g.edges,
    config := g.config }

/-- Resolve and normalize one node: `selected` forced to `false`. -/
def normNode (h : Heap) (n : PFNode) : PFValueNode :=
  { resolveNode h n with selected := false }

/-- Normalize an edge. -/
def normEdge (e : PFEdge) : PFEdge :=
  { e with selected := false }

/-- Resolve a graph and normalize every `selected` flag to `false`:
two graphs are "structurally equal modulo selected normalization" iff their
`normGraph` views agree. -/
def normGraph (h : Heap) (g : PFGraph) : PFValueGraph :=
  { nodes := g.nodes.map (normNode h),
    edges := g.edges.map normEdge,
    config := g.config }

/-- The node's `properties` address (if any) is below the bound. -/
def nodeAddrOk (nx : Addr) (n : PFNode) : Bool :=
  match n.properties with
  | some a => decide (a < nx)
  | none => true

/-- Every `properties` address reachable from the nodes is below the bound
(the store's allocation counter); fresh allocations therefore never collide
with an address already reachable from the graph. -/
def nodesAddrLt (nodes : List PFNode) (nx : Addr) : Bool :=
  nodes.all (nodeAddrOk nx)

/-! ## Auxiliary notions used by the statements -/

/-- The operations a caller can perform on the history module; used to state
that an evicted action can never come back. -/
inductive HistOp where
  | push (a : PFHistoryAction)
  | undo
  | redo
  | clear
deriving DecidableEq

/-- One history-module call. -/
def histStep (st : PFHistoryState) : HistOp → PFHistoryState
  | .push a => pushAction st a
  | .undo => (histUndo st).2
  | .redo => (histRedo st).2
  | .clear => clearHistory st

/-- Run a sequence of history-module calls. -/
def histRun (st : PFHistoryState) (ops : List HistOp) : PFHistoryState :=
  ops.foldl histStep st

/-- Call `undo()` `n` times in a row. -/
def histUndoN : Nat → PFHistoryState → PFHistoryState
  | 0, st => st
  | n + 1, st => histUndoN n (histUndo st).2

/-- "Exactly one history record of the given type was written": the new
history state is the old one with a single action of that type pushed
(evicting the oldest entry when over capacity) and the redo stack cleared. -/
def pushedOne (h h2 : PFHistoryState) (ty : String) : Prop :=
  ∃ a : PFHistoryAction, a.type = ty ∧
    h2.redoStack = [] ∧
    h2.undoStack = (if h.maxStackSize < (h.undoStack ++ [a]).length
                    then (h.undoStack ++ [a]).tail
                    else h.undoStack ++ [a]) ∧
    h2.maxStackSize = h.maxStackSize ∧
    h2.isUndoing = h.isUndoing ∧ h2.isRedoing = h.isRedoing

/-- `addEdge` check 1: the edge-count limit has been reached. -/
def edgeLimitReached (s : PFGraphStore) : Prop :=
  ¬ (s.graph.edges.length < s.graph.config.maxEdges)

/-- `addEdge` check 2: an endpoint node does not exist. -/
def endpointNodeMissing (s : PFGraphStore) (e : PFEdgeInput) : Prop :=
  getNode s e.sourceNodeId = none ∨ getNode s e.targetNodeId = none

/-- `addEdge` check 3: both endpoint nodes exist but an endpoint port does
not. -/
def endpointPortMissing (s : PFGraphStore) (e : PFEdgeInput) : Prop :=
  ∃ sn tn, getNode s e.sourceNodeId = some sn ∧ getNode s e.targetNodeId = some tn ∧
    (sn.ports.find? (fun p => p.id == e.sourcePortId) = none ∨
     tn.ports.find? (fun p => p.id == e.targetPortId) = none)

/-- `addEdge` check 4: nodes and ports exist but the polarity is wrong
(the source port must have direction `output` and the target port direction
`input`). -/
def edgeDirectionMismatch (s : PFGraphStore) (e : PFEdgeInput) : Prop :=
  ∃ sn tn sp tp, getNode s e.sourceNodeId = some sn ∧ getNode s e.targetNodeId = some tn ∧
    sn.ports.find? (fun p => p.id == e.sourcePortId) = some sp ∧
    tn.ports.find? (fun p => p.id == e.targetPortId) = some tp ∧
    ¬ (sp.type = "output" ∧ tp.type = "input")

/-- `addEdge` check 5: an edge with the identical endpoint tuple exists. -/
def duplicateEdgeExists (s : PFGraphStore) (e : PFEdgeInput) : Prop :=
  ∃ e0 ∈ s.graph.edges,
    e0.sourceNodeId = e.sourceNodeId ∧ e0.sourcePortId = e.sourcePortId ∧
    e0.targetNodeId = e.targetNodeId ∧ e0.targetPortId = e.targetPortId

/-! ## Concrete fixtures used by counterexamples and witnesses -/

/-- A node that already owns a `properties` object (at heap address 0). -/
def propNode : PFNode :=
  { id := "n1", type := "widget", title := "Node 1", x := 0, y := 0,
    width := none, height := none, image := none, ports := [],
    properties := some 0, selected := false }

/-- A store holding `propNode` with `properties = { p: 1 }`. -/
def propStore : PFGraphStore :=
  { graph := { nodes := [propNode], edges := [], config := defaultConfig },
    selectedNodes := [], selectedEdges := [],
    history := histInit 20,
    heap := fun a => if a = 0 then [("p", PValue.num 1)] else [],
    nextAddr := 1, nextId := 0 }

/-- An output port `p1` (on node `a1`). -/
def outPort : PFPort :=
  { id := "p1", name := "out", type := "output", dataType := "image", required := false }

/-- An input port `p2` (on node `a2`). -/
def inPort : PFPort :=
  { id := "p2", name := "in", type := "input", dataType := "image", required := false }

/-- Node `a1` with one output port. -/
def nodeA : PFNode :=
  { id := "a1", type := "source", title := "A", x := 0, y := 0,
    width := none, height := none, image := none, ports := [outPort],
    properties := none, selected := false }

/-- Node `a2` with one input port. -/
def nodeB : PFNode :=
  { id := "a2", type := "sink", title := "B", x := 100, y := 0,
    width := none, height := none, image := none, ports := [inPort],
    properties := none, selected := false }

/-- An edge from `a1.p1` to `a2.p2`. -/
def edgeAB : PFEdge :=
  { id := "e1", sourceNodeId := "a1", sourcePortId := "p1",
    targetNodeId := "a2", targetPortId := "p2", selected := false }

/-- A two-node store with one edge touching node `a1`. -/
def twoNodeStore : PFGraphStore :=
  { graph := { nodes := [nodeA, nodeB], edges := [edgeAB], config := defaultConfig },
    selectedNodes := [], selectedEdges := [],
    history := histInit 20,
    heap := fun _ => [], nextAddr := 0, nextId := 0 }

/-- The same two nodes without any edge yet (for the `addEdge` witness). -/
def twoNodeStoreNoEdge : PFGraphStore :=
  { graph := { nodes := [nodeA, nodeB], edges := [], config := defaultConfig },
    selectedNodes := [], selectedEdges := [],
    history := histInit 20,
    heap := fun _ => [], nextAddr := 0, nextId := 0 }

/-- The `addEdge` request connecting `a1.p1` to `a2.p2`. -/
def edgeRequestAB : PFEdgeInput :=
  { sourceNodeId := "a1", sourcePortId := "p1",
    targetNodeId := "a2", targetPortId := "p2", selected := false }

/-- The two-node store with node `a1` currently selected. -/
def twoNodeStoreSel : PFGraphStore :=
  { graph := { nodes := [{ nodeA with selected := true }, nodeB], edges := [edgeAB],
               config := defaultConfig },
    selectedNodes := ["a1"], selectedEdges := [],
    history := histInit 20,
    heap := fun _ => [], nextAddr := 0, nextId := 0 }

/-- The reversed `addEdge` request (`a2.p2` to `a1.p1`), violating the
output→input polarity. -/
def edgeRequestBA : PFEdgeInput :=
  { sourceNodeId := "a2", sourcePortId := "p2",
    targetNodeId := "a1", targetPortId := "p1", selected := false }

/-- Two distinguishable history actions for the capacity witness. -/
def demoAction (k : Nat) : PFHistoryAction :=
  { id := "action_" ++ toString k, type := "add_node", timestamp := 0,
    beforeState := { nodes := [], edges := [], config := defaultConfig },
    afterState := { nodes := [], edges := [], config := defaultConfig },
    description := "demo " ++ toString k }

/-- An accepted import document with the three mandatory top-level keys. -/
def goodImportDoc : Json :=
  .obj [("nodes", .arr []), ("edges", .arr []), ("config", .obj [])]

/-- A rejected import document: the `config` key is missing. -/
def badImportDoc : Json :=
  .obj [("nodes", .arr []), ("edges", .arr [])]

/-- A document that passes the truthiness gate although its `nodes` payload
is a number: `{"nodes": 5, "edges": [], "config": {}}`. -/
def nonArrayNodesDoc : Json :=
  .obj [("nodes", .num 5), ("edges", .arr []), ("config", .obj [])]

/-- A store with node `a1` selected and one action on the undo stack — the
state on which the malformed import exhibits a partial application. -/
def selStoreWithHistory : PFGraphStore :=
  { graph := { nodes := [{ nodeA with selected := true }, nodeB], edges := [edgeAB],
               config := defaultConfig },
    selectedNodes := ["a1"], selectedEdges := [],
    history := { histInit 20 with undoStack := [demoAction 0] },
    heap := fun _ => [], nextAddr := 0, nextId := 0 }

/-! ## Theorems -/

/-- Evaluating one zoom-in wheel step (`deltaY < 0`). -/
theorem handleWheel_eq_zoomIn (v : Viewport) (cw ch mx my dy : ℚ) (hdy : dy < 0) :
    handleWheel v cw ch mx my dy =
      { x := screenToWorldX v cw mx - mx / cw * (v.width / (11 / 10)),
        y := screenToWorldY v ch my - my / ch * (v.height / (11 / 10)),
        width := v.width / (11 / 10), height := v.height / (11 / 10),
        scale := v.scale * (11 / 10) } := by
  simp [handleWheel, hdy]

/-- Evaluating one zoom-out wheel step (`deltaY ≥ 0`). -/
theorem handleWheel_eq_zoomOut (v : Viewport) (cw ch mx my dy : ℚ) (hdy : ¬ dy < 0) :
    handleWheel v cw ch mx my dy =
      { x := screenToWorldX v cw mx - mx / cw * (v.width * (11 / 10)),
        y := screenToWorldY v ch my - my / ch * (v.height * (11 / 10)),
        width := v.width * (11 / 10), height := v.height * (11 / 10),
        scale := v.scale / (11 / 10) } := by
  simp [handleWheel, hdy]

/-- C7: one wheel-zoom step divides `width`/`height` by the zoom factor and
multiplies `scale` by it when zooming in (`deltaY < 0`), does the opposite
when zooming out, recomputes the origin as
`newX = worldX - (mouseX / canvasWidth) * newWidth`, and the world point
under the cursor is exactly preserved: the cursor's world coordinates are
the same before and after the step, and (for nondegenerate sizes) that world
point projects back to the same cursor position. -/
theorem handleWheel_anchors_cursor (v : Viewport) (cw ch mx my dy : ℚ) :
    (dy < 0 →
      (handleWheel v cw ch mx my dy).width = v.width / (11 / 10) ∧
      (handleWheel v cw ch mx my dy).height = v.height / (11 / 10) ∧
      (handleWheel v cw ch mx my dy).scale = v.scale * (11 / 10)) ∧
    (¬ dy < 0 →
      (handleWheel v cw ch mx my dy).width = v.width * (11 / 10) ∧
      (handleWheel v cw ch mx my dy).height = v.height * (11 / 10) ∧
      (handleWheel v cw ch mx my dy).scale = v.scale / (11 / 10)) ∧
    screenToWorldX (handleWheel v cw ch mx my dy) cw mx = screenToWorldX v cw mx ∧
    screenToWorldY (handleWheel v cw ch mx my dy) ch my = screenToWorldY v ch my ∧
    (cw ≠ 0 → (handleWheel v cw ch mx my dy).width ≠ 0 →
      (screenToWorldX v cw mx - (handleWheel v cw ch mx my dy).x) /
        (handleWheel v cw ch mx my dy).width * cw = mx) ∧
    (ch ≠ 0 → (handleWheel v cw ch mx my dy).height ≠ 0 →
      (screenToWorldY v ch my - (handleWheel v cw ch mx my dy).y) /
        (handleWheel v cw ch mx my dy).height * ch = my) := by
  by_cases hdy : dy < 0
  · rw [handleWheel_eq_zoomIn v cw ch mx my dy hdy]
    refine ⟨fun _ => ⟨rfl, rfl, rfl⟩, fun h => absurd hdy h, ?_, ?_, ?_, ?_⟩
    · simp only [screenToWorldX]; ring
    · simp only [screenToWorldY]; ring
    · intro hcw hwidth
      rw [sub_sub_cancel, mul_div_assoc, div_self hwidth, mul_one, div_mul_cancel₀ _ hcw]
    · intro hch hheight
      rw [sub_sub_cancel, mul_div_assoc, div_self hheight, mul_one, div_mul_cancel₀ _ hch]
  · rw [handleWheel_eq_zoomOut v cw ch mx my dy hdy]
    refine ⟨fun h => absurd h hdy, fun _ => ⟨rfl, rfl, rfl⟩, ?_, ?_, ?_, ?_⟩
    · simp only [screenToWorldX]; ring
    · simp only [screenToWorldY]; ring
    · intro hcw hwidth
      rw [sub_sub_cancel, mul_div_assoc, div_self hwidth, mul_one, div_mul_cancel₀ _ hcw]
    · intro hch hheight
      rw [sub_sub_cancel, mul_div_assoc, div_self hheight, mul_one, div_mul_cancel₀ _ hch]

/-- C7 witness: the spec scenario — zoom in one wheel step anchored at the
canvas center of an 800×600 canvas with the initial viewport
`{x:0, y:0, width:800, height:600, scale:1}`; the world point at the canvas
center stays at the canvas center. -/
theorem handleWheel_anchors_cursor_witness :
    ((-1 : ℚ) < 0) ∧
    screenToWorldX (handleWheel ⟨0, 0, 800, 600, 1⟩ 800 600 400 300 (-1)) 800 400 =
      screenToWorldX ⟨0, 0, 800, 600, 1⟩ 800 400 ∧
    (screenToWorldX (⟨0, 0, 800, 600, 1⟩ : Viewport) 800 400 -
        (handleWheel ⟨0, 0, 800, 600, 1⟩ 800 600 400 300 (-1)).x) /
      (handleWheel ⟨0, 0, 800, 600, 1⟩ 800 600 400 300 (-1)).width * 800 = 400 ∧
    (handleWheel ⟨0, 0, 800, 600, 1⟩ 800 600 400 300 (-1)).width = 800 / (11 / 10) := by
  have hwidth : (handleWheel ⟨0, 0, 800, 600, 1⟩ 800 600 400 300 (-1)).width = 800 / (11 / 10) :=
    ((handleWheel_anchors_cursor ⟨0, 0, 800, 600, 1⟩ 800 600 400 300 (-1)).1 (by norm_num)).1
  refine ⟨by norm_num, ?_, ?_, hwidth⟩
  · exact (handleWheel_anchors_cursor ⟨0, 0, 800, 600, 1⟩ 800 600 400 300 (-1)).2.2.1
  · exact (handleWheel_anchors_cursor ⟨0, 0, 800, 600, 1⟩ 800 600 400 300 (-1)).2.2.2.2.1
      (by norm_num) (by rw [hwidth]; norm_num)

/-- C1: the undo/redo inverse law fails for `updateNodeProperty`.  On a node
that already owns a `properties` object (here `{ p: 1 }`), setting `p := 2`
and then calling `undo()` does *not* restore `p = 1`: the before snapshot is
only deep-cloned inside `recordAction`, after the shared `properties` object
was already mutated, so the undo re-applies `p = 2`. -/
theorem updateNodeProperty_undo_not_inverse :
    (updateNodeProperty propStore "n1" "p" (.num 2)).1 = true ∧
    (storeUndo (updateNodeProperty propStore "n1" "p" (.num 2)).2).1 = true ∧
    (normGraph (storeUndo (updateNodeProperty propStore "n1" "p" (.num 2)).2).2.heap
        (storeUndo (updateNodeProperty propStore "n1" "p" (.num 2)).2).2.graph).nodes.map
        (fun n => n.properties) = [some [("p", PValue.num 2)]] ∧
    (normGraph propStore.heap propStore.graph).nodes.map (fun n => n.properties) =
      [some [("p", PValue.num 1)]] ∧
    normGraph (storeUndo (updateNodeProperty propStore "n1" "p" (.num 2)).2).2.heap
        (storeUndo (updateNodeProperty propStore "n1" "p" (.num 2)).2).2.graph ≠
      normGraph propStore.heap propStore.graph := by
  refine ⟨by decide, by decide, by decide, by decide, by decide⟩

/-- C3: `exportGraph` is not a deep copy.  A snapshot exported before a
`updateNodeProperty` call observes the mutation, because the exported node
shares its `properties` object (heap address) with the live node. -/
theorem exportGraph_not_independent :
    (exportGraph propStore).nodes.map (fun n => n.properties) =
      propStore.graph.nodes.map (fun n => n.properties) ∧
    (resolveGraph (updateNodeProperty propStore "n1" "p" (.num 2)).2.heap
        (exportGraph propStore)).nodes.map (fun n => n.properties) =
      [some [("p", PValue.num 2)]] ∧
    resolveGraph (updateNodeProperty propStore "n1" "p" (.num 2)).2.heap
        (exportGraph propStore) ≠
      resolveGraph propStore.heap (exportGraph propStore) := by
  refine ⟨by decide, by decide, by decide⟩

/-- Normalization ignores the `selected` flag of a node. -/
theorem normNode_set_selected (h : Heap) (n : PFNode) (b : Bool) :
    normNode h { n with selected := b } = normNode h n := rfl

/-- Normalization ignores the `selected` flag of an edge. -/
theorem normEdge_set_selected (e : PFEdge) (b : Bool) :
    normEdge { e with selected := b } = normEdge e := rfl

/-- Clearing one node's mirrored selection flag is invisible modulo
normalization. -/
theorem map_normNode_updateFirst_selected (h : Heap) (ns : List PFNode) (nodeId : String)
    (b : Bool) :
    (updateFirstNode ns nodeId (fun n => { n with selected := b })).map (normNode h) =
      ns.map (normNode h) := by
  induction ns with
  | nil => rfl
  | cons n rest ih =>
    by_cases hid : (n.id == nodeId) = true
    · simp [updateFirstNode, hid, normNode_set_selected]
    · simp [updateFirstNode, hid, ih]

/-- Clearing the mirrored flags of a whole selection list is invisible
modulo normalization. -/
theorem map_normNode_foldl_deselect (h : Heap) (ids : List String) :
    ∀ ns : List PFNode,
      (ids.foldl (fun acc nodeId =>
        updateFirstNode acc nodeId (fun n => { n with selected := false })) ns).map
          (normNode h) = ns.map (normNode h) := by
  induction ids with
  | nil => intro ns; rfl
  | cons i rest ih =>
    intro ns
    simpa [List.foldl_cons, map_normNode_updateFirst_selected] using
      (ih (updateFirstNode ns i (fun n => { n with selected := false }))).trans
        (map_normNode_updateFirst_selected h ns i false)

/-- Edge version of `map_normNode_updateFirst_selected`. -/
theorem map_normEdge_updateFirst_selected (es : List PFEdge) (edgeId : String) (b : Bool) :
    (updateFirstEdge es edgeId (fun e => { e with selected := b })).map normEdge =
      es.map normEdge := by
  induction es with
  | nil => rfl
  | cons e rest ih =>
    by_cases hid : (e.id == edgeId) = true
    · simp [updateFirstEdge, hid, normEdge_set_selected]
    · simp [updateFirstEdge, hid, ih]

/-- Edge version of `map_normNode_foldl_deselect`. -/
theorem map_normEdge_foldl_deselect (ids : List String) :
    ∀ es : List PFEdge,
      (ids.foldl (fun acc edgeId =>
        updateFirstEdge acc edgeId (fun e => { e with selected := false })) es).map
          normEdge = es.map normEdge := by
  induction ids with
  | nil => intro es; rfl
  | cons i rest ih =>
    intro es
    exact (ih (updateFirstEdge es i (fun e => { e with selected := false }))).trans
      (map_normEdge_updateFirst_selected es i false)

/-- `clearSelection` changes the graph only in `selected` flags. -/
theorem clearSelection_norm (s : PFGraphStore) :
    (clearSelection s).graph.nodes.map (normNode s.heap) = s.graph.nodes.map (normNode s.heap) ∧
    (clearSelection s).graph.edges.map normEdge = s.graph.edges.map normEdge ∧
    (clearSelection s).graph.config = s.graph.config ∧
    (clearSelection s).selectedNodes = [] ∧
    (clearSelection s).selectedEdges = [] ∧
    (clearSelection s).heap = s.heap ∧
    (clearSelection s).history = s.history ∧
    (clearSelection s).nextAddr = s.nextAddr := by
  refine ⟨?_, ?_, rfl, rfl, rfl, rfl, rfl, rfl⟩
  · exact map_normNode_foldl_deselect s.heap s.selectedNodes s.graph.nodes
  · exact map_normEdge_foldl_deselect s.selectedEdges s.graph.edges

/-- Exported nodes agree with the live nodes modulo normalization (under any
heap, since export preserves the `properties` addresses). -/
theorem map_normNode_exportGraph (h : Heap) (s : PFGraphStore) :
    (exportGraph s).nodes.map (normNode h) = s.graph.nodes.map (normNode h) := by
  have hcomp : (normNode h) ∘ (fun n : PFNode => { n with selected := false }) = normNode h :=
    funext fun n => normNode_set_selected h n false
  simp [exportGraph, List.map_map, hcomp]

/-- Exported edges agree with the live edges modulo normalization. -/
theorem map_normEdge_exportGraph (s : PFGraphStore) :
    (exportGraph s).edges.map normEdge = s.graph.edges.map normEdge := by
  have hcomp : normEdge ∘ (fun e : PFEdge => { e with selected := false }) = normEdge :=
    funext fun e => normEdge_set_selected e false
  simp [exportGraph, List.map_map, hcomp]

/-- `loadGraph` installs the given nodes and edges (normalization-exactly),
keeps the store's own config and clears the selection. -/
theorem loadGraph_spec (s : PFGraphStore) (g : PFGraph) :
    (loadGraph s g).graph.nodes.map (normNode s.heap) = g.nodes.map (normNode s.heap) ∧
    (loadGraph s g).graph.edges.map normEdge = g.edges.map normEdge ∧
    (loadGraph s g).graph.config = s.graph.config ∧
    (loadGraph s g).selectedNodes = [] ∧
    (loadGraph s g).selectedEdges = [] ∧
    (loadGraph s g).heap = s.heap ∧
    (loadGraph s g).history = s.history ∧
    (loadGraph s g).nextAddr = s.nextAddr := by
  unfold loadGraph
  exact clearSelection_norm
    { s with graph := { nodes := g.nodes, edges := g.edges, config := s.graph.config } }

/-- C6: the round-trip law — `loadGraph(exportGraph(g))` reproduces the held
graph up to normalization of all `selected` flags to `false` (compared after
resolving the shared property objects through the heap, which the round trip
leaves untouched). -/
theorem loadGraph_exportGraph_roundtrip (s : PFGraphStore) :
    normGraph (loadGraph s (exportGraph s)).heap (loadGraph s (exportGraph s)).graph =
      normGraph s.heap s.graph := by
  obtain ⟨hn, he, hc, -, -, hheap, -, -⟩ := loadGraph_spec s (exportGraph s)
  unfold normGraph
  rw [hheap, hn, he, hc, map_normNode_exportGraph, map_normEdge_exportGraph]

/-- C10: `loadGraph` replaces the store's nodes and edges with those of the
argument (exactly when nothing was selected, always up to `selected`
normalization), *keeps the store's own `config`* no matter what config the
argument carries, clears both selections, and leaves heap and history
alone. -/
theorem loadGraph_keeps_config_clears_selection (s : PFGraphStore) (g : PFGraph) :
    (loadGraph s g).graph.config = s.graph.config ∧
    (loadGraph s g).selectedNodes = [] ∧
    (loadGraph s g).selectedEdges = [] ∧
    (loadGraph s g).history = s.history ∧
    (loadGraph s g).heap = s.heap ∧
    (loadGraph s g).graph.nodes.map (normNode s.heap) = g.nodes.map (normNode s.heap) ∧
    (loadGraph s g).graph.edges.map normEdge = g.edges.map normEdge ∧
    (s.selectedNodes = [] → s.selectedEdges = [] →
      (loadGraph s g).graph.nodes = g.nodes ∧ (loadGraph s g).graph.edges = g.edges) := by
  obtain ⟨hn, he, hc, hsn, hse, hheap, hhist, -⟩ := loadGraph_spec s g
  refine ⟨hc, hsn, hse, hhist, hheap, hn, he, fun h1 h2 => ?_⟩
  simp [loadGraph, clearSelection, h1, h2]

/-- A graph whose `config` differs from the default store's config, for the
C10 witness. -/
theorem loadGraph_keeps_config_witness :
    (loadGraph twoNodeStore
        { nodes := [propNode], edges := [], config :=
          { maxNodes := 5, maxEdges := 7, nodeDefaultWidth := 1, nodeDefaultHeight := 1 } }).graph.config =
      defaultConfig ∧
    twoNodeStore.selectedNodes = [] ∧
    (loadGraph twoNodeStore
        { nodes := [propNode], edges := [], config :=
          { maxNodes := 5, maxEdges := 7, nodeDefaultWidth := 1, nodeDefaultHeight := 1 } }).graph.nodes =
      [propNode] := by
  have h := loadGraph_keeps_config_clears_selection twoNodeStore
    { nodes := [propNode], edges := [], config :=
      { maxNodes := 5, maxEdges := 7, nodeDefaultWidth := 1, nodeDefaultHeight := 1 } }
  exact ⟨h.1, rfl, (h.2.2.2.2.2.2.2 rfl rfl).1⟩

/-- `recordAction` touches only the heap, the generators and the history;
graph and selection pass through unchanged. -/
theorem recordAction_frame (s : PFGraphStore) (ty : String) (before after : PFGraph)
    (desc : String) :
    (recordAction s ty before after desc).graph = s.graph ∧
    (recordAction s ty before after desc).selectedNodes = s.selectedNodes ∧
    (recordAction s ty before after desc).selectedEdges = s.selectedEdges := by
  rcases hc1 : cloneGraph before s.heap s.nextAddr with ⟨b, h1, nx1⟩
  rcases hc2 : cloneGraph after h1 nx1 with ⟨a, h2, nx2⟩
  simp [recordAction, hc1, hc2]

/-- A successful `addEdgeRun` is what `addEdge` hands to the caller. -/
theorem addEdge_eq_added {s : PFGraphStore} {e : PFEdgeInput} {id : String}
    {s1 : PFGraphStore} (h : addEdgeRun s e = .added id s1) :
    addEdge s e = (some id, s1) := by
  simp [addEdge, h]

/-- The graph passes through `recordAction` unchanged. -/
theorem recordAction_graph (s : PFGraphStore) (ty : String) (before after : PFGraph)
    (desc : String) :
    (recordAction s ty before after desc).graph = s.graph :=
  (recordAction_frame s ty before after desc).1

/-- The node selection passes through `recordAction` unchanged. -/
theorem recordAction_selectedNodes (s : PFGraphStore) (ty : String) (before after : PFGraph)
    (desc : String) :
    (recordAction s ty before after desc).selectedNodes = s.selectedNodes :=
  (recordAction_frame s ty before after desc).2.1

/-- Outside of replay, `recordAction` writes exactly one record of its type. -/
theorem recordAction_pushedOne (s : PFGraphStore) (ty : String) (before after : PFGraph)
    (desc : String) (hu : s.history.isUndoing = false) (hr : s.history.isRedoing = false) :
    pushedOne s.history (recordAction s ty before after desc).history ty := by
  rcases hc1 : cloneGraph before s.heap s.nextAddr with ⟨b, h1, nx1⟩
  rcases hc2 : cloneGraph after h1 nx1 with ⟨a, h2, nx2⟩
  simp only [recordAction, hc1, hc2]
  refine ⟨{ id := "action_" ++ toString s.nextId, type := ty, timestamp := 0,
            beforeState := b, afterState := a, description := desc }, rfl, ?_, ?_, ?_, ?_, ?_⟩ <;>
    simp [pushAction, hu, hr]

/-- C8: the JSON import is *not* all-or-nothing.  A parse failure or a
document missing (or falsy at) any of `nodes`, `edges`, `config` is indeed
rejected with the store returned bit-for-bit unchanged — but the truthiness
gate also accepts `{"nodes": 5, "edges": [], "config": {}}`.  On a store
with a nonempty node selection, `loadGraph` first replaces `state.graph`
with that payload, then `clearSelection`'s node lookup evaluates
`state.graph.nodes.find(...)` on the number `5` and throws a `TypeError`
that lands in the import's `catch` — after the previous graph is gone and
before `clearHistory()` ran: the selection and the undo history survive the
"failed" import while the graph does not. -/
theorem importGraphFromJSON_partial_import :
    importGraphFromJSON none selStoreWithHistory = selStoreWithHistory ∧
    (importAccepted (some badImportDoc) = false ∧
      importGraphFromJSON (some badImportDoc) selStoreWithHistory = selStoreWithHistory) ∧
    importAccepted (some nonArrayNodesDoc) = true ∧
    (importGraphFromJSON (some nonArrayNodesDoc) selStoreWithHistory).history.undoStack =
      [demoAction 0] ∧
    (importGraphFromJSON (some nonArrayNodesDoc) selStoreWithHistory).selectedNodes =
      ["a1"] ∧
    (importGraphFromJSON (some nonArrayNodesDoc) selStoreWithHistory).graph.nodes = [] ∧
    (importGraphFromJSON (some nonArrayNodesDoc) selStoreWithHistory).graph.nodes ≠
      selStoreWithHistory.graph.nodes := by
  refine ⟨rfl, ⟨by decide, ?_⟩, by decide, by decide, by decide, by decide, by decide⟩
  have hgate : (truthyField badImportDoc "nodes" && truthyField badImportDoc "edges" &&
      truthyField badImportDoc "config") = false := by decide
  simp only [importGraphFromJSON, hgate, Bool.false_eq_true, if_false]

/-- C9: `removeEdge` on an unknown id returns the store bit-for-bit unchanged
(graph, selection, heap *and* history — no record is written); on an existing
id it removes exactly that edge, leaves the nodes alone, drops the id from
the edge selection, and writes exactly one `remove_edge` history record. -/
theorem removeEdge_spec (s : PFGraphStore) (edgeId : String) :
    (s.graph.edges.findIdx? (fun e => e.id == edgeId) = none →
      removeEdge s edgeId = s) ∧
    (∀ i, s.graph.edges.findIdx? (fun e => e.id == edgeId) = some i →
      s.history.isUndoing = false → s.history.isRedoing = false →
      s.selectedEdges.Nodup →
      (removeEdge s edgeId).graph.edges = s.graph.edges.eraseIdx i ∧
      (removeEdge s edgeId).graph.nodes = s.graph.nodes ∧
      edgeId ∉ (removeEdge s edgeId).selectedEdges ∧
      pushedOne s.history (removeEdge s edgeId).history "remove_edge") := by
  constructor
  · intro h
    simp [removeEdge, h]
  · intro i hfind hu hr hnd
    have hrm : removeEdge s edgeId =
        (let s2 := recordAction
          { s with graph := { s.graph with edges := s.graph.edges.eraseIdx i } }
          "remove_edge" (exportGraph s)
          (exportGraph { s with graph := { s.graph with edges := s.graph.edges.eraseIdx i } })
          "Remove edge"
        if s2.selectedEdges.contains edgeId then
          { s2 with selectedEdges := s2.selectedEdges.erase edgeId }
        else s2) := by
      unfold removeEdge
      rw [hfind]
    obtain ⟨hg, hsn, hse⟩ := recordAction_frame
      { s with graph := { s.graph with edges := s.graph.edges.eraseIdx i } }
      "remove_edge" (exportGraph s)
      (exportGraph { s with graph := { s.graph with edges := s.graph.edges.eraseIdx i } })
      "Remove edge"
    have hpush := recordAction_pushedOne
      { s with graph := { s.graph with edges := s.graph.edges.eraseIdx i } }
      "remove_edge" (exportGraph s)
      (exportGraph { s with graph := { s.graph with edges := s.graph.edges.eraseIdx i } })
      "Remove edge" hu hr
    rw [hrm]
    by_cases hm : edgeId ∈ s.selectedEdges
    · simp only [hse, List.contains_eq_any_beq]
      rw [show (s.selectedEdges.any (edgeId == ·)) = true from
        List.any_eq_true.mpr ⟨edgeId, hm, by simp⟩]
      simp only [if_true]
      exact ⟨by rw [hg], by rw [hg], hnd.not_mem_erase, hpush⟩
    · simp only [hse, List.contains_eq_any_beq]
      rw [show (s.selectedEdges.any (edgeId == ·)) = false from
        List.any_eq_false.mpr (fun x hx hbeq => by
          rw [beq_iff_eq] at hbeq
          cases hbeq
          exact hm hx)]
      simp only [Bool.false_eq_true, if_false]
      refine ⟨by rw [hg], by rw [hg], ?_, hpush⟩
      rw [hse]
      exact hm

/-- C9 witness: on the two-node store with single edge `e1`, removing the
unknown id `missing` is the identity, and removing `e1` deletes it and
records one action. -/
theorem removeEdge_spec_witness :
    removeEdge twoNodeStore "missing" = twoNodeStore ∧
    (removeEdge twoNodeStore "e1").graph.edges = [] ∧
    (removeEdge twoNodeStore "e1").graph.nodes = [nodeA, nodeB] ∧
    "e1" ∉ (removeEdge twoNodeStore "e1").selectedEdges ∧
    pushedOne twoNodeStore.history (removeEdge twoNodeStore "e1").history "remove_edge" := by
  have h1 := (removeEdge_spec twoNodeStore "missing").1 (by decide)
  have h2 := (removeEdge_spec twoNodeStore "e1").2 0 (by decide) rfl rfl (by decide)
  exact ⟨h1, h2.1, h2.2.1, h2.2.2.1, h2.2.2.2⟩

/-- With both endpoint nodes found, `endpointPortMissing` reduces to the port
lookups. -/
theorem endpointPortMissing_elim {s : PFGraphStore} {e : PFEdgeInput} {sn tn : PFNode}
    (hsn : getNode s e.sourceNodeId = some sn) (htn : getNode s e.targetNodeId = some tn) :
    endpointPortMissing s e ↔
      (sn.ports.find? (fun p => p.id == e.sourcePortId) = none ∨
       tn.ports.find? (fun p => p.id == e.targetPortId) = none) := by
  constructor
  · rintro ⟨sn1, tn1, h1, h2, h3⟩
    rw [hsn] at h1
    rw [htn] at h2
    cases h1
    cases h2
    exact h3
  · intro h
    exact ⟨sn, tn, hsn, htn, h⟩

/-- With nodes and ports found, `edgeDirectionMismatch` reduces to the
polarity test. -/
theorem edgeDirectionMismatch_elim {s : PFGraphStore} {e : PFEdgeInput} {sn tn : PFNode}
    {sp tp : PFPort}
    (hsn : getNode s e.sourceNodeId = some sn) (htn : getNode s e.targetNodeId = some tn)
    (hsp : sn.ports.find? (fun p => p.id == e.sourcePortId) = some sp)
    (htp : tn.ports.find? (fun p => p.id == e.targetPortId) = some tp) :
    edgeDirectionMismatch s e ↔ ¬ (sp.type = "output" ∧ tp.type = "input") := by
  constructor
  · rintro ⟨sn1, tn1, sp1, tp1, h1, h2, h3, h4, h5⟩
    rw [hsn] at h1
    rw [htn] at h2
    cases h1
    cases h2
    rw [hsp] at h3
    rw [htp] at h4
    cases h3
    cases h4
    exact h5
  · intro h
    exact ⟨sn, tn, sp, tp, hsn, htn, hsp, htp, h⟩

/-- `duplicateEdgeExists` matches the `any` scan of the source. -/
theorem duplicateEdgeExists_iff (s : PFGraphStore) (e : PFEdgeInput) :
    duplicateEdgeExists s e ↔
      (s.graph.edges.any (fun e0 =>
        e0.sourceNodeId == e.sourceNodeId && e0.sourcePortId == e.sourcePortId &&
        e0.targetNodeId == e.targetNodeId && e0.targetPortId == e.targetPortId)) = true := by
  unfold duplicateEdgeExists
  rw [List.any_eq_true]
  constructor
  · rintro ⟨e0, hmem, h1, h2, h3, h4⟩
    exact ⟨e0, hmem, by simp [h1, h2, h3, h4]⟩
  · rintro ⟨e0, hmem, hb⟩
    simp only [Bool.and_eq_true, beq_iff_eq] at hb
    exact ⟨e0, hmem, hb.1.1.1, hb.1.1.2, hb.1.2, hb.2⟩

/-- C2: `addEdge` validates in the order edge-count limit → endpoint node
existence → endpoint port existence → direction check → duplicate-tuple
check; each rejection branch fires exactly when its check fails and every
earlier check passes, any rejection returns `null` with the store (graph,
selection, history) untouched, and only when every check passes is the edge
appended and exactly one `add_edge` history record written. -/
theorem addEdge_validation_order (s : PFGraphStore) (e : PFEdgeInput) :
    (addEdgeRun s e = .rejected .limitExceeded ↔ edgeLimitReached s) ∧
    (addEdgeRun s e = .rejected .nodeNotFound ↔
      ¬ edgeLimitReached s ∧ endpointNodeMissing s e) ∧
    (addEdgeRun s e = .rejected .portNotFound ↔
      ¬ edgeLimitReached s ∧ ¬ endpointNodeMissing s e ∧ endpointPortMissing s e) ∧
    (addEdgeRun s e = .rejected .directionMismatch ↔
      ¬ edgeLimitReached s ∧ ¬ endpointNodeMissing s e ∧ ¬ endpointPortMissing s e ∧
        edgeDirectionMismatch s e) ∧
    (addEdgeRun s e = .rejected .duplicateEdge ↔
      ¬ edgeLimitReached s ∧ ¬ endpointNodeMissing s e ∧ ¬ endpointPortMissing s e ∧
        ¬ edgeDirectionMismatch s e ∧ duplicateEdgeExists s e) ∧
    (∀ r, addEdgeRun s e = .rejected r → addEdge s e = (none, s)) ∧
    (¬ edgeLimitReached s → ¬ endpointNodeMissing s e → ¬ endpointPortMissing s e →
      ¬ edgeDirectionMismatch s e → ¬ duplicateEdgeExists s e →
      s.history.isUndoing = false → s.history.isRedoing = false →
      ∃ s1, addEdge s e = (some ("edge_" ++ toString s.nextId), s1) ∧
        s1.graph.edges = s.graph.edges ++
          [{ id := "edge_" ++ toString s.nextId,
             sourceNodeId := e.sourceNodeId, sourcePortId := e.sourcePortId,
             targetNodeId := e.targetNodeId, targetPortId := e.targetPortId,
             selected := false }] ∧
        s1.graph.nodes = s.graph.nodes ∧
        s1.graph.config = s.graph.config ∧
        pushedOne s.history s1.history "add_edge") := by
  by_cases hlim : s.graph.edges.length < s.graph.config.maxEdges
  case neg =>
    have hL : edgeLimitReached s := hlim
    have heq : addEdgeRun s e = .rejected .limitExceeded := by
      simp [addEdgeRun, hlim]
    refine ⟨iff_of_true heq hL,
      iff_of_false (by rw [heq]; simp) (fun h => h.1 hL),
      iff_of_false (by rw [heq]; simp) (fun h => h.1 hL),
      iff_of_false (by rw [heq]; simp) (fun h => h.1 hL),
      iff_of_false (by rw [heq]; simp) (fun h => h.1 hL),
      fun r _ => by simp [addEdge, heq],
      fun h1 _ _ _ _ _ _ => absurd hL h1⟩
  case pos =>
    have hnL : ¬ edgeLimitReached s := fun h => h hlim
    cases hsn : getNode s e.sourceNodeId with
    | none =>
      have hNM : endpointNodeMissing s e := Or.inl hsn
      have heq : addEdgeRun s e = .rejected .nodeNotFound := by
        simp [addEdgeRun, hlim, hsn]
      refine ⟨iff_of_false (by rw [heq]; simp) (fun h => hnL h),
        iff_of_true heq ⟨hnL, hNM⟩,
        iff_of_false (by rw [heq]; simp) (fun h => h.2.1 hNM),
        iff_of_false (by rw [heq]; simp) (fun h => h.2.1 hNM),
        iff_of_false (by rw [heq]; simp) (fun h => h.2.1 hNM),
        fun r _ => by simp [addEdge, heq],
        fun _ h2 _ _ _ _ _ => absurd hNM h2⟩
    | some sn =>
      cases htn : getNode s e.targetNodeId with
      | none =>
        have hNM : endpointNodeMissing s e := Or.inr htn
        have heq : addEdgeRun s e = .rejected .nodeNotFound := by
          simp [addEdgeRun, hlim, hsn, htn]
        refine ⟨iff_of_false (by rw [heq]; simp) (fun h => hnL h),
          iff_of_true heq ⟨hnL, hNM⟩,
          iff_of_false (by rw [heq]; simp) (fun h => h.2.1 hNM),
          iff_of_false (by rw [heq]; simp) (fun h => h.2.1 hNM),
          iff_of_false (by rw [heq]; simp) (fun h => h.2.1 hNM),
          fun r _ => by simp [addEdge, heq],
          fun _ h2 _ _ _ _ _ => absurd hNM h2⟩
      | some tn =>
        have hnNM : ¬ endpointNodeMissing s e := by
          rintro (h | h)
          · rw [h] at hsn; cases hsn
          · rw [h] at htn; cases htn
        cases hsp : sn.ports.find? (fun p => p.id == e.sourcePortId) with
        | none =>
          have hPM : endpointPortMissing s e :=
            (endpointPortMissing_elim hsn htn).mpr (Or.inl hsp)
          have heq : addEdgeRun s e = .rejected .portNotFound := by
            simp [addEdgeRun, hlim, hsn, htn, hsp]
          refine ⟨iff_of_false (by rw [heq]; simp) (fun h => hnL h),
            iff_of_false (by rw [heq]; simp) (fun h => hnNM h.2),
            iff_of_true heq ⟨hnL, hnNM, hPM⟩,
            iff_of_false (by rw [heq]; simp) (fun h => h.2.2.1 hPM),
            iff_of_false (by rw [heq]; simp) (fun h => h.2.2.1 hPM),
            fun r _ => by simp [addEdge, heq],
            fun _ _ h3 _ _ _ _ => absurd hPM h3⟩
        | some sp =>
          cases htp : tn.ports.find? (fun p => p.id == e.targetPortId) with
          | none =>
            have hPM : endpointPortMissing s e :=
              (endpointPortMissing_elim hsn htn).mpr (Or.inr htp)
            have heq : addEdgeRun s e = .rejected .portNotFound := by
              simp [addEdgeRun, hlim, hsn, htn, hsp, htp]
            refine ⟨iff_of_false (by rw [heq]; simp) (fun h => hnL h),
              iff_of_false (by rw [heq]; simp) (fun h => hnNM h.2),
              iff_of_true heq ⟨hnL, hnNM, hPM⟩,
              iff_of_false (by rw [heq]; simp) (fun h => h.2.2.1 hPM),
              iff_of_false (by rw [heq]; simp) (fun h => h.2.2.1 hPM),
              fun r _ => by simp [addEdge, heq],
              fun _ _ h3 _ _ _ _ => absurd hPM h3⟩
          | some tp =>
            have hnPM : ¬ endpointPortMissing s e := by
              intro h
              rcases (endpointPortMissing_elim hsn htn).mp h with h1 | h1
              · rw [h1] at hsp; cases hsp
              · rw [h1] at htp; cases htp
            by_cases hdir : (!(sp.type == "output") || !(tp.type == "input")) = true
            · have hDM : edgeDirectionMismatch s e := by
                refine (edgeDirectionMismatch_elim hsn htn hsp htp).mpr ?_
                rintro ⟨h1, h2⟩
                simp [h1, h2] at hdir
              have heq : addEdgeRun s e = .rejected .directionMismatch := by
                simp only [addEdgeRun, if_pos hlim, hsn, htn, hsp, htp, hdir, if_true]
              refine ⟨iff_of_false (by rw [heq]; simp) (fun h => hnL h),
                iff_of_false (by rw [heq]; simp) (fun h => hnNM h.2),
                iff_of_false (by rw [heq]; simp) (fun h => hnPM h.2.2),
                iff_of_true heq ⟨hnL, hnNM, hnPM, hDM⟩,
                iff_of_false (by rw [heq]; simp) (fun h => h.2.2.2.1 hDM),
                fun r _ => by simp [addEdge, heq],
                fun _ _ _ h4 _ _ _ => absurd hDM h4⟩
            · have hpol : sp.type = "output" ∧ tp.type = "input" := by
                rw [Bool.not_eq_true, Bool.or_eq_false_iff,
                  Bool.not_eq_false', Bool.not_eq_false'] at hdir
                exact ⟨by have := hdir.1; rwa [beq_iff_eq] at this,
                       by have := hdir.2; rwa [beq_iff_eq] at this⟩
              have hnDM : ¬ edgeDirectionMismatch s e := fun h =>
                (edgeDirectionMismatch_elim hsn htn hsp htp).mp h hpol
              by_cases hdup : (s.graph.edges.any (fun e0 =>
                  e0.sourceNodeId == e.sourceNodeId && e0.sourcePortId == e.sourcePortId &&
                  e0.targetNodeId == e.targetNodeId && e0.targetPortId == e.targetPortId)) = true
              · have hDup : duplicateEdgeExists s e := (duplicateEdgeExists_iff s e).mpr hdup
                have heq : addEdgeRun s e = .rejected .duplicateEdge := by
                  simp only [addEdgeRun, if_pos hlim, hsn, htn, hsp, htp, hdir, hdup]
                  simp
                refine ⟨iff_of_false (by rw [heq]; simp) (fun h => hnL h),
                  iff_of_false (by rw [heq]; simp) (fun h => hnNM h.2),
                  iff_of_false (by rw [heq]; simp) (fun h => hnPM h.2.2),
                  iff_of_false (by rw [heq]; simp) (fun h => hnDM h.2.2.2),
                  iff_of_true heq ⟨hnL, hnNM, hnPM, hnDM, hDup⟩,
                  fun r _ => by simp [addEdge, heq],
                  fun _ _ _ _ h5 _ _ => absurd hDup h5⟩
              · have hnDup : ¬ duplicateEdgeExists s e := fun h =>
                  hdup ((duplicateEdgeExists_iff s e).mp h)
                have heq : addEdgeRun s e = .added ("edge_" ++ toString s.nextId)
                    (recordAction
                      { s with
                          graph := { s.graph with edges := s.graph.edges ++
                            [{ id := "edge_" ++ toString s.nextId,
                               sourceNodeId := e.sourceNodeId, sourcePortId := e.sourcePortId,
                               targetNodeId := e.targetNodeId, targetPortId := e.targetPortId,
                               selected := false }] },
                          nextId := s.nextId + 1 }
                      "add_edge" (exportGraph s)
                      (exportGraph { s with
                          graph := { s.graph with edges := s.graph.edges ++
                            [{ id := "edge_" ++ toString s.nextId,
                               sourceNodeId := e.sourceNodeId, sourcePortId := e.sourcePortId,
                               targetNodeId := e.targetNodeId, targetPortId := e.targetPortId,
                               selected := false }] },
                          nextId := s.nextId + 1 })
                      "Add edge") := by
                  simp only [addEdgeRun, if_pos hlim, hsn, htn, hsp, htp, hdir, hdup]
                  simp
                refine ⟨?_, ?_, ?_, ?_, ?_, ?_, ?_⟩
                · exact iff_of_false (by rw [heq]; simp) (fun h => hnL h)
                · exact iff_of_false (by rw [heq]; simp) (fun h => hnNM h.2)
                · exact iff_of_false (by rw [heq]; simp) (fun h => hnPM h.2.2)
                · exact iff_of_false (by rw [heq]; simp) (fun h => hnDM h.2.2.2)
                · exact iff_of_false (by rw [heq]; simp) (fun h => hnDup h.2.2.2.2)
                · intro r hr
                  rw [heq] at hr
                  cases hr
                · intro _ _ _ _ _ hu hr
                  refine ⟨_, addEdge_eq_added heq, ?_, ?_, ?_, ?_⟩
                  · simp only [recordAction_graph]
                  · simp only [recordAction_graph]
                  · simp only [recordAction_graph]
                  · exact recordAction_pushedOne _ "add_edge" _ _ "Add edge" hu hr

/-- C2 witness: on the two-node store, connecting `a1.p1 → a2.p2` succeeds
(appending the edge, one `add_edge` record); the reversed request
`a2.p2 → a1.p1` is rejected by the direction check. -/
theorem addEdge_validation_order_witness :
    (∃ s1, addEdge twoNodeStoreNoEdge edgeRequestAB = (some "edge_0", s1) ∧
      s1.graph.edges = [{ id := "edge_0", sourceNodeId := "a1", sourcePortId := "p1",
                          targetNodeId := "a2", targetPortId := "p2", selected := false }] ∧
      pushedOne twoNodeStoreNoEdge.history s1.history "add_edge") ∧
    addEdgeRun twoNodeStoreNoEdge edgeRequestBA = .rejected .directionMismatch := by
  constructor
  · have hA : ¬ edgeLimitReached twoNodeStoreNoEdge := by
      intro h
      exact h (by decide)
    have hB : ¬ endpointNodeMissing twoNodeStoreNoEdge edgeRequestAB := by
      rintro (h | h) <;> exact absurd h (by decide)
    have hsn : getNode twoNodeStoreNoEdge edgeRequestAB.sourceNodeId = some nodeA := by decide
    have htn : getNode twoNodeStoreNoEdge edgeRequestAB.targetNodeId = some nodeB := by decide
    have hC : ¬ endpointPortMissing twoNodeStoreNoEdge edgeRequestAB := by
      intro h
      rcases (endpointPortMissing_elim hsn htn).mp h with h1 | h1 <;> exact absurd h1 (by decide)
    have hsp : nodeA.ports.find? (fun p => p.id == edgeRequestAB.sourcePortId) = some outPort := by
      decide
    have htp : nodeB.ports.find? (fun p => p.id == edgeRequestAB.targetPortId) = some inPort := by
      decide
    have hD : ¬ edgeDirectionMismatch twoNodeStoreNoEdge edgeRequestAB := by
      intro h
      exact (edgeDirectionMismatch_elim hsn htn hsp htp).mp h (by decide)
    have hE : ¬ duplicateEdgeExists twoNodeStoreNoEdge edgeRequestAB := by
      intro h
      exact absurd ((duplicateEdgeExists_iff _ _).mp h) (by decide)
    obtain ⟨s1, h1, h2, h3, h4, h5⟩ :=
      (addEdge_validation_order twoNodeStoreNoEdge edgeRequestAB).2.2.2.2.2.2
        hA hB hC hD hE rfl rfl
    exact ⟨s1, h1, h2, h5⟩
  · have hA : ¬ edgeLimitReached twoNodeStoreNoEdge := by
      intro h
      exact h (by decide)
    have hB : ¬ endpointNodeMissing twoNodeStoreNoEdge edgeRequestBA := by
      rintro (h | h) <;> exact absurd h (by decide)
    have hsn : getNode twoNodeStoreNoEdge edgeRequestBA.sourceNodeId = some nodeB := by decide
    have htn : getNode twoNodeStoreNoEdge edgeRequestBA.targetNodeId = some nodeA := by decide
    have hC : ¬ endpointPortMissing twoNodeStoreNoEdge edgeRequestBA := by
      intro h
      rcases (endpointPortMissing_elim hsn htn).mp h with h1 | h1 <;> exact absurd h1 (by decide)
    have hD : edgeDirectionMismatch twoNodeStoreNoEdge edgeRequestBA := by
      refine ⟨nodeB, nodeA, inPort, outPort, hsn, htn, by decide, by decide, ?_⟩
      rintro ⟨h1, h2⟩
      exact absurd h1 (by decide)
    exact (addEdge_validation_order twoNodeStoreNoEdge edgeRequestBA).2.2.2.1.mpr
      ⟨hA, hB, hC, hD⟩

/-- Evaluating `pushAction` outside of replay. -/
theorem pushAction_eval (u r : List PFHistoryAction) (N : Nat) (a : PFHistoryAction) :
    pushAction { undoStack := u, redoStack := r, maxStackSize := N,
                 isUndoing := false, isRedoing := false } a =
      { undoStack := if N < (u ++ [a]).length then (u ++ [a]).tail else u ++ [a],
        redoStack := [], maxStackSize := N, isUndoing := false, isRedoing := false } := by
  simp [pushAction]

/-- Folding a sequence of `pushAction`s from a redo-free, non-replaying state
keeps exactly the most recent `N` of the pushed-plus-prior actions. -/
theorem foldl_pushAction_formula (N : Nat) (acts : List PFHistoryAction) :
    ∀ u : List PFHistoryAction, u.length ≤ N →
      List.foldl pushAction
        { undoStack := u, redoStack := [], maxStackSize := N,
          isUndoing := false, isRedoing := false } acts =
      { undoStack := (u ++ acts).drop ((u ++ acts).length - N), redoStack := [],
        maxStackSize := N, isUndoing := false, isRedoing := false } := by
  induction acts with
  | nil =>
    intro u hu
    simp [Nat.sub_eq_zero_of_le hu]
  | cons a rest ih =>
    intro u hu
    rw [List.foldl_cons, pushAction_eval]
    by_cases hlt : u.length < N
    · rw [if_neg (by simp; omega)]
      rw [ih (u ++ [a]) (by simp; omega)]
      have hassoc : (u ++ [a]) ++ rest = u ++ a :: rest := by simp
      rw [hassoc]
    · have hu' : u.length = N := Nat.le_antisymm hu (Nat.not_lt.mp hlt)
      rw [if_pos (by simp; omega)]
      cases u with
      | nil =>
        have hN : N = 0 := by simpa using hu'.symm
        subst hN
        rw [show ([] ++ [a] : List PFHistoryAction).tail = [] from rfl]
        rw [ih [] (by simp)]
        simp
      | cons b u1 =>
        rw [show ((b :: u1) ++ [a]).tail = u1 ++ [a] from rfl]
        rw [ih (u1 ++ [a]) (by simp at hu' ⊢; omega)]
        have hassoc : (u1 ++ [a]) ++ rest = u1 ++ a :: rest := by simp
        rw [hassoc]
        have hcons : (b :: u1) ++ a :: rest = b :: (u1 ++ a :: rest) := rfl
        rw [hcons]
        have hlen : (b :: (u1 ++ a :: rest)).length - N = ((u1 ++ a :: rest).length - N) + 1 := by
          simp at hu' ⊢
          omega
        rw [hlen, List.drop_succ_cons]

/-- `histUndo` on a non-replaying state with a non-empty undo stack pops the
most recent action. -/
theorem histUndo_pops (st : PFHistoryState) (hu : st.isUndoing = false)
    (hr : st.isRedoing = false) (hne : st.undoStack ≠ []) :
    (histUndo st).2.undoStack = st.undoStack.dropLast ∧
    (histUndo st).2.isUndoing = false ∧ (histUndo st).2.isRedoing = false := by
  have hcan : canUndo st = true := by
    simp [canUndo, hu, hr, List.length_pos, hne]
  obtain ⟨x, hx⟩ := Option.isSome_iff_exists.mp (List.getLast?_isSome.mpr hne)
  simp [histUndo, hcan, hx, hu, hr]

/-- Undoing as many times as the stack is deep empties it, never flipping the
replay flags. -/
theorem histUndoN_empties : ∀ (n : Nat) (st : PFHistoryState),
    st.undoStack.length = n → st.isUndoing = false → st.isRedoing = false →
    (histUndoN n st).undoStack = [] ∧
    (histUndoN n st).isUndoing = false ∧ (histUndoN n st).isRedoing = false := by
  intro n
  induction n with
  | zero =>
    intro st hlen hu hr
    exact ⟨List.length_eq_zero.mp hlen, hu, hr⟩
  | succ n ih =>
    intro st hlen hu hr
    have hne : st.undoStack ≠ [] := by
      intro h
      rw [h] at hlen
      cases hlen
    obtain ⟨h1, h2, h3⟩ := histUndo_pops st hu hr hne
    have hlen1 : (histUndo st).2.undoStack.length = n := by
      rw [h1, List.length_dropLast, hlen]
      omega
    exact ih (histUndo st).2 hlen1 h2 h3

/-- Any action found on a stack after one history call was already on a stack
before it, unless this very call pushed it. -/
theorem histStep_mem (st : PFHistoryState) (op : HistOp) (x : PFHistoryAction)
    (h : x ∈ (histStep st op).undoStack ∨ x ∈ (histStep st op).redoStack) :
    (x ∈ st.undoStack ∨ x ∈ st.redoStack) ∨ op = .push x := by
  cases op with
  | push a =>
    simp only [histStep, pushAction] at h
    by_cases hflag : (st.isUndoing || st.isRedoing) = true
    · rw [if_pos hflag] at h
      exact Or.inl h
    · rw [if_neg hflag] at h
      rcases h with h | h
      · have hmem : x ∈ st.undoStack ++ [a] := by
          by_cases hcap : st.maxStackSize < (st.undoStack ++ [a]).length
          · rw [if_pos hcap] at h
            exact List.mem_of_mem_tail h
          · rw [if_neg hcap] at h
            exact h
        rcases List.mem_append.mp hmem with h1 | h1
        · exact Or.inl (Or.inl h1)
        · have hxa : x = a := by simpa using h1
          exact Or.inr (by rw [hxa])
      · cases h
  | undo =>
    simp only [histStep, histUndo] at h
    by_cases hcan : canUndo st = true
    · rw [if_pos hcan] at h
      cases hlast : st.undoStack.getLast? with
      | none =>
        rw [hlast] at h
        exact Or.inl h
      | some act =>
        rw [hlast] at h
        simp only at h
        rcases h with h | h
        · exact Or.inl (Or.inl (List.mem_of_mem_dropLast h))
        · have hmem : x ∈ st.redoStack ++ [act] := by
            by_cases hcap : st.maxStackSize < (st.redoStack ++ [act]).length
            · rw [if_pos hcap] at h
              exact List.mem_of_mem_tail h
            · rw [if_neg hcap] at h
              exact h
          rcases List.mem_append.mp hmem with h1 | h1
          · exact Or.inl (Or.inr h1)
          · have hxa : x = act := by simpa using h1
            exact Or.inl (Or.inl (hxa ▸ List.mem_of_getLast?_eq_some hlast))
    · rw [if_neg hcan] at h
      exact Or.inl h
  | redo =>
    simp only [histStep, histRedo] at h
    by_cases hcan : canRedo st = true
    · rw [if_pos hcan] at h
      cases hlast : st.redoStack.getLast? with
      | none =>
        rw [hlast] at h
        exact Or.inl h
      | some act =>
        rw [hlast] at h
        simp only at h
        rcases h with h | h
        · have hmem : x ∈ st.undoStack ++ [act] := by
            by_cases hcap : st.maxStackSize < (st.undoStack ++ [act]).length
            · rw [if_pos hcap] at h
              exact List.mem_of_mem_tail h
            · rw [if_neg hcap] at h
              exact h
          rcases List.mem_append.mp hmem with h1 | h1
          · exact Or.inl (Or.inl h1)
          · have hxa : x = act := by simpa using h1
            exact Or.inl (Or.inr (hxa ▸ List.mem_of_getLast?_eq_some hlast))
        · exact Or.inl (Or.inr (List.mem_of_mem_dropLast h))
    · rw [if_neg hcan] at h
      exact Or.inl h
  | clear =>
    simp [histStep, clearHistory] at h

/-- An action absent from both stacks can never reappear unless it is pushed
again. -/
theorem histRun_not_mem (x : PFHistoryAction) : ∀ (ops : List HistOp) (st : PFHistoryState),
    x ∉ st.undoStack → x ∉ st.redoStack → (∀ b, HistOp.push b ∈ ops → b ≠ x) →
    x ∉ (histRun st ops).undoStack ∧ x ∉ (histRun st ops).redoStack := by
  intro ops
  induction ops with
  | nil => exact fun st h1 h2 _ => ⟨h1, h2⟩
  | cons op rest ih =>
    intro st h1 h2 hops
    have hstep : x ∉ (histStep st op).undoStack ∧ x ∉ (histStep st op).redoStack := by
      constructor <;>
      · intro hmem
        rcases histStep_mem st op x (by first | exact Or.inl hmem | exact Or.inr hmem) with
          h | h
        · rcases h with h | h
          · exact h1 h
          · exact h2 h
        · exact hops x (by rw [h]; exact List.mem_cons_self _ _) rfl
    exact ih (histStep st op) hstep.1 hstep.2
      (fun b hb => hops b (List.mem_cons_of_mem _ hb))

/-- C5: `recordAction`'s stack handling (`pushAction`) is a complete no-op
while a replay flag is set; otherwise it pushes the action, evicts the oldest
entry exactly when the stack exceeds capacity `N`, and empties the redo
stack.  Consequently, pushing more than `N` (pairwise distinct) actions into
a fresh history keeps exactly the most recent `N`: `undo()` repeated `N`
times exhausts the stack, and every older action — in particular the
`(N+1)`-th counting back from the most recent — is on neither stack and can
never reappear under any further sequence of history calls that does not
push it again. -/
theorem pushAction_capacity_and_history_bound :
    (∀ (st : PFHistoryState) (a : PFHistoryAction),
      (st.isUndoing = true ∨ st.isRedoing = true) → pushAction st a = st) ∧
    (∀ (st : PFHistoryState) (a : PFHistoryAction),
      st.isUndoing = false → st.isRedoing = false →
      (pushAction st a).redoStack = [] ∧
      (pushAction st a).undoStack =
        (if st.maxStackSize < (st.undoStack ++ [a]).length
         then (st.undoStack ++ [a]).tail else st.undoStack ++ [a])) ∧
    (∀ (N : Nat) (acts : List PFHistoryAction), N < acts.length → acts.Nodup →
      (histRun (histInit N) (acts.map HistOp.push)).undoStack =
        acts.drop (acts.length - N) ∧
      (histRun (histInit N) (acts.map HistOp.push)).redoStack = [] ∧
      (histUndoN N (histRun (histInit N) (acts.map HistOp.push))).undoStack = [] ∧
      canUndo (histUndoN N (histRun (histInit N) (acts.map HistOp.push))) = false ∧
      (∀ a ∈ acts.take (acts.length - N),
        a ∉ (histRun (histInit N) (acts.map HistOp.push)).undoStack ∧
        a ∉ (histRun (histInit N) (acts.map HistOp.push)).redoStack ∧
        ∀ ops : List HistOp, (∀ b, HistOp.push b ∈ ops → b ≠ a) →
          a ∉ (histRun (histRun (histInit N) (acts.map HistOp.push)) ops).undoStack ∧
          a ∉ (histRun (histRun (histInit N) (acts.map HistOp.push)) ops).redoStack)) := by
  refine ⟨?_, ?_, ?_⟩
  · intro st a hflag
    have h : (st.isUndoing || st.isRedoing) = true := by
      rcases hflag with h | h <;> simp [h]
    simp [pushAction, h]
  · intro st a hu hr
    constructor <;> simp [pushAction, hu, hr]
  · intro N acts hN hnd
    have hfold : histRun (histInit N) (acts.map HistOp.push) =
        { undoStack := acts.drop (acts.length - N), redoStack := [],
          maxStackSize := N, isUndoing := false, isRedoing := false } := by
      unfold histRun histInit
      rw [List.foldl_map]
      have : (fun (st : PFHistoryState) (a : PFHistoryAction) => histStep st (HistOp.push a)) =
          pushAction := rfl
      rw [this]
      have h0 := foldl_pushAction_formula N acts [] (by simp)
      simpa using h0
    have hlen : (acts.drop (acts.length - N)).length = N := by
      rw [List.length_drop]
      omega
    have hempt := histUndoN_empties N
      { undoStack := acts.drop (acts.length - N), redoStack := [],
        maxStackSize := N, isUndoing := false, isRedoing := false }
      hlen rfl rfl
    refine ⟨by rw [hfold], by rw [hfold], by rw [hfold]; exact hempt.1, ?_, ?_⟩
    · rw [hfold]
      simp [canUndo, hempt.1, hempt.2.1, hempt.2.2]
    · intro a hamem
      have hdisj : a ∉ acts.drop (acts.length - N) := by
        have hsplit := List.take_append_drop (acts.length - N) acts
        rw [← hsplit] at hnd
        exact (List.nodup_append.mp hnd).2.2 hamem
      refine ⟨by rw [hfold]; exact hdisj, by rw [hfold]; simp, ?_⟩
      intro ops hops
      rw [hfold]
      exact histRun_not_mem a ops _ hdisj (by simp) hops

/-- C5 witness: with capacity `N = 1`, pushing the two distinct demo actions
keeps only the second; one `undo()` exhausts the stack and the evicted first
action never reappears under an `undo(); redo()` sequence. -/
theorem pushAction_capacity_witness :
    (histRun (histInit 1) ([demoAction 0, demoAction 1].map HistOp.push)).undoStack =
      [demoAction 1] ∧
    (histUndoN 1 (histRun (histInit 1)
      ([demoAction 0, demoAction 1].map HistOp.push))).undoStack = [] ∧
    demoAction 0 ∉ (histRun (histInit 1)
      ([demoAction 0, demoAction 1].map HistOp.push)).undoStack ∧
    demoAction 0 ∉ (histRun (histRun (histInit 1)
      ([demoAction 0, demoAction 1].map HistOp.push))
      [HistOp.undo, HistOp.redo]).undoStack := by
  have hN : 1 < ([demoAction 0, demoAction 1] : List PFHistoryAction).length := by decide
  have hnd : ([demoAction 0, demoAction 1] : List PFHistoryAction).Nodup := by decide
  obtain ⟨h1, h2, h3, h4, h5⟩ :=
    (pushAction_capacity_and_history_bound).2.2 1 [demoAction 0, demoAction 1] hN hnd
  have hmem : demoAction 0 ∈ ([demoAction 0, demoAction 1] : List PFHistoryAction).take
      (([demoAction 0, demoAction 1] : List PFHistoryAction).length - 1) := by decide
  obtain ⟨h6, h7, h8⟩ := h5 (demoAction 0) hmem
  refine ⟨by simpa using h1, h3, h6, ?_⟩
  exact (h8 [HistOp.undo, HistOp.redo] (by intro b hb; simp at hb)).1

/-- Resolution only reads heap cells below the address bound, so heaps that
agree below it resolve the nodes identically. -/
theorem map_resolveNode_congr (ns : List PFNode) (h h2 : Heap) (nx : Addr)
    (hwf : nodesAddrLt ns nx = true) (hagree : ∀ b, b < nx → h2 b = h b) :
    ns.map (resolveNode h2) = ns.map (resolveNode h) := by
  induction ns with
  | nil => rfl
  | cons n rest ih =>
    simp only [nodesAddrLt, List.all_cons, Bool.and_eq_true] at hwf
    have hhead : resolveNode h2 n = resolveNode h n := by
      unfold resolveNode
      cases hp : n.properties with
      | none => simp [hp]
      | some a =>
        have ha : a < nx := by
          have := hwf.1
          unfold nodeAddrOk at this
          rw [hp] at this
          exact of_decide_eq_true this
        simp [hp, hagree a ha]
    simp only [List.map_cons, hhead]
    rw [ih hwf.2]

/-- Address bounds are monotone. -/
theorem nodesAddrLt_mono {ns : List PFNode} {nx nx2 : Addr}
    (h : nodesAddrLt ns nx = true) (hle : nx ≤ nx2) : nodesAddrLt ns nx2 = true := by
  unfold nodesAddrLt at h ⊢
  rw [List.all_eq_true] at h ⊢
  intro n hn
  have := h n hn
  unfold nodeAddrOk at this ⊢
  cases hp : n.properties with
  | none => rfl
  | some a =>
    rw [hp] at this
    exact decide_eq_true (Nat.lt_of_lt_of_le (of_decide_eq_true this) hle)

/-- The deep clone only allocates: the next free address never decreases and
existing cells are untouched. -/
theorem cloneNodes_heap_agree (ns : List PFNode) : ∀ (h : Heap) (nx : Addr),
    nx ≤ (cloneNodes ns h nx).2.2 ∧
    (∀ b, b < nx → (cloneNodes ns h nx).2.1 b = h b) := by
  induction ns with
  | nil => exact fun h nx => ⟨Nat.le_refl nx, fun b _ => rfl⟩
  | cons n rest ih =>
    intro h nx
    cases hp : n.properties with
    | none =>
      rcases hrec : cloneNodes rest h nx with ⟨ns1, h1, nx1⟩
      have := ih h nx
      simp only [hrec] at this
      simp only [cloneNodes, hp, hrec]
      exact this
    | some a =>
      rcases hrec : cloneNodes rest (heapSet h nx (h a)) (nx + 1) with ⟨ns1, h1, nx1⟩
      have hr := ih (heapSet h nx (h a)) (nx + 1)
      simp only [hrec] at hr
      simp only [cloneNodes, hp, hrec]
      refine ⟨Nat.le_trans (Nat.le_succ nx) hr.1, fun b hb => ?_⟩
      rw [hr.2 b (Nat.lt_succ_of_lt hb)]
      unfold heapSet
      rw [if_neg (Nat.ne_of_lt hb)]

/-- The deep clone is faithful: the cloned nodes resolve (under the extended
heap) to the same values as the originals (under the original heap), and all
cloned addresses are below the new allocation bound. -/
theorem cloneNodes_resolve (ns : List PFNode) : ∀ (h : Heap) (nx : Addr),
    nodesAddrLt ns nx = true →
    nodesAddrLt (cloneNodes ns h nx).1 (cloneNodes ns h nx).2.2 = true ∧
    (cloneNodes ns h nx).1.map (resolveNode (cloneNodes ns h nx).2.1) =
      ns.map (resolveNode h) := by
  induction ns with
  | nil => exact fun h nx _ => ⟨rfl, rfl⟩
  | cons n rest ih =>
    intro h nx hwf
    simp only [nodesAddrLt, List.all_cons, Bool.and_eq_true] at hwf
    cases hp : n.properties with
    | none =>
      rcases hrec : cloneNodes rest h nx with ⟨ns1, h1, nx1⟩
      have hihr := ih h nx hwf.2
      simp only [hrec] at hihr
      have hagree := cloneNodes_heap_agree rest h nx
      simp only [hrec] at hagree
      simp only [cloneNodes, hp, hrec]
      constructor
      · simp only [nodesAddrLt, List.all_cons, Bool.and_eq_true]
        refine ⟨?_, hihr.1⟩
        unfold nodeAddrOk
        rw [hp]
      · simp only [List.map_cons]
        rw [hihr.2]
        have hhead : resolveNode h1 n = resolveNode h n := by
          unfold resolveNode
          simp [hp]
        rw [hhead]
    | some a =>
      have ha : a < nx := by
        have := hwf.1
        unfold nodeAddrOk at this
        rw [hp] at this
        exact of_decide_eq_true this
      rcases hrec : cloneNodes rest (heapSet h nx (h a)) (nx + 1) with ⟨ns1, h1, nx1⟩
      have hihr := ih (heapSet h nx (h a)) (nx + 1)
        (nodesAddrLt_mono hwf.2 (Nat.le_succ nx))
      simp only [hrec] at hihr
      have hagree := cloneNodes_heap_agree rest (heapSet h nx (h a)) (nx + 1)
      simp only [hrec] at hagree
      simp only [cloneNodes, hp, hrec]
      constructor
      · simp only [nodesAddrLt, List.all_cons, Bool.and_eq_true]
        refine ⟨?_, hihr.1⟩
        unfold nodeAddrOk
        simp only
        exact decide_eq_true (Nat.lt_of_lt_of_le (Nat.lt_succ_self nx) hagree.1)
      · simp only [List.map_cons]
        have htail : ns1.map (resolveNode h1) = rest.map (resolveNode h) := by
          rw [hihr.2]
          exact map_resolveNode_congr rest h (heapSet h nx (h a)) nx hwf.2
            (fun b hb => by unfold heapSet; rw [if_neg (Nat.ne_of_lt hb)])
        rw [htail]
        have hcell : h1 nx = h a := by
          rw [hagree.2 nx (Nat.lt_succ_self nx)]
          unfold heapSet
          rw [if_pos rfl]
        have hhead : resolveNode h1 { n with properties := some nx } = resolveNode h n := by
          unfold resolveNode
          simp [hp, hcell]
        rw [hhead]

/-- Normalization respects resolution equality. -/
theorem map_normNode_of_map_resolveNode {h h2 : Heap} {ns ns2 : List PFNode}
    (heq : ns2.map (resolveNode h2) = ns.map (resolveNode h)) :
    ns2.map (normNode h2) = ns.map (normNode h) := by
  have h1 : normNode h2 = (fun v : PFValueNode => { v with selected := false }) ∘ resolveNode h2 :=
    funext fun n => rfl
  have h3 : normNode h = (fun v : PFValueNode => { v with selected := false }) ∘ resolveNode h :=
    funext fun n => rfl
  rw [h1, h3, ← List.map_map, ← List.map_map, heq]

/-- The capped push always keeps the pushed element on top (for a positive
capacity). -/
theorem getLast?_capped {α : Type} (u : List α) (a : α) (N : Nat) (hN : 1 ≤ N) :
    (if N < (u ++ [a]).length then (u ++ [a]).tail else u ++ [a]).getLast? = some a := by
  by_cases hc : N < (u ++ [a]).length
  · rw [if_pos hc]
    cases u with
    | nil =>
      simp at hc
      omega
    | cons c u1 =>
      rw [show ((c :: u1) ++ [a]).tail = u1 ++ [a] from rfl]
      exact List.getLast?_concat _
  · rw [if_neg hc]
    exact List.getLast?_concat _

/-- Evaluating `pushAction` when no replay is in progress. -/
theorem pushAction_flags_false (h : PFHistoryState) (act : PFHistoryAction)
    (hu : h.isUndoing = false) (hr : h.isRedoing = false) :
    pushAction h act =
      { h with
        undoStack := (if h.maxStackSize < h.undoStack.length + 1
                      then (h.undoStack ++ [act]).tail else h.undoStack ++ [act]),
        redoStack := [] } := by
  simp [pushAction, hu, hr]

/-- `getLast?` of a push-then-maybe-evict stack is the pushed element, as
long as eviction cannot leave the stack empty. -/
theorem getLast?_tail_or_self {α : Type} (u : List α) (a : α) (P : Prop) [Decidable P]
    (h : P → u ≠ []) :
    (if P then (u ++ [a]).tail else u ++ [a]).getLast? = some a := by
  by_cases hp : P
  · rw [if_pos hp]
    cases u with
    | nil => exact absurd rfl (h hp)
    | cons c u1 =>
      rw [show ((c :: u1) ++ [a]).tail = u1 ++ [a] from rfl]
      exact List.getLast?_concat _
  · rw [if_neg hp]
    exact List.getLast?_concat _

/-- Immediately after a (non-replaying) `pushAction` with positive capacity,
`undo()` pops exactly the pushed action. -/
theorem pushAction_then_histUndo (h : PFHistoryState) (act : PFHistoryAction)
    (hu : h.isUndoing = false) (hr : h.isRedoing = false) (hmax : 1 ≤ h.maxStackSize) :
    (histUndo (pushAction h act)).1 = some act := by
  have hgetLast : (pushAction h act).undoStack.getLast? = some act := by
    rw [pushAction_flags_false h act hu hr]
    refine getLast?_tail_or_self h.undoStack act _ ?_
    intro hc hnil
    rw [hnil] at hc
    simp at hc
    omega
  have hne : (pushAction h act).undoStack ≠ [] := by
    intro hcontra
    rw [hcontra] at hgetLast
    cases hgetLast
  have hcan : canUndo (pushAction h act) = true := by
    rw [pushAction_flags_false h act hu hr] at hne ⊢
    simp only [canUndo, hu, hr]
    simp [List.length_pos, hne]
  simp only [histUndo, hcan, if_true, hgetLast]

/-- After `recordAction`, a single store-level `undo()` succeeds and restores
(modulo `selected` normalization) exactly the recorded before snapshot —
whose resolved value is the snapshot's value at record time. -/
theorem recordAction_then_undo (s : PFGraphStore) (ty : String) (before after : PFGraph)
    (desc : String)
    (hu : s.history.isUndoing = false) (hr : s.history.isRedoing = false)
    (hmax : 1 ≤ s.history.maxStackSize)
    (hwf : nodesAddrLt before.nodes s.nextAddr = true) :
    (storeUndo (recordAction s ty before after desc)).1 = true ∧
    (storeUndo (recordAction s ty before after desc)).2.graph.nodes.map
        (normNode (storeUndo (recordAction s ty before after desc)).2.heap) =
      before.nodes.map (normNode s.heap) ∧
    (storeUndo (recordAction s ty before after desc)).2.graph.edges.map normEdge =
      before.edges.map normEdge ∧
    (storeUndo (recordAction s ty before after desc)).2.graph.config = s.graph.config := by
  rcases hc1 : cloneNodes before.nodes s.heap s.nextAddr with ⟨bn, h1, nx1⟩
  rcases hc2 : cloneNodes after.nodes h1 nx1 with ⟨an, h2, nx2⟩
  have hcg1 : cloneGraph before s.heap s.nextAddr = ({ before with nodes := bn }, h1, nx1) := by
    simp [cloneGraph, hc1]
  have hcg2 : cloneGraph after h1 nx1 = ({ after with nodes := an }, h2, nx2) := by
    simp [cloneGraph, hc2]
  have hrec : recordAction s ty before after desc =
      { s with heap := h2, nextAddr := nx2, nextId := s.nextId + 1,
               history := pushAction s.history
                 { id := "action_" ++ toString s.nextId, type := ty, timestamp := 0,
                   beforeState := { before with nodes := bn },
                   afterState := { after with nodes := an }, description := desc } } := by
    simp only [recordAction, hcg1, hcg2]
  obtain ⟨act, hactB, hrec2⟩ : ∃ act : PFHistoryAction,
      act.beforeState = { before with nodes := bn } ∧
      recordAction s ty before after desc =
        { s with heap := h2, nextAddr := nx2, nextId := s.nextId + 1,
                 history := pushAction s.history act } :=
    ⟨_, rfl, hrec⟩
  have hpop := pushAction_then_histUndo s.history act hu hr hmax
  rcases hh : histUndo (pushAction s.history act) with ⟨oact, st1⟩
  rw [hh] at hpop
  simp only at hpop
  subst hpop
  have hsu : storeUndo (recordAction s ty before after desc) =
      (true, loadGraph
        { s with heap := h2, nextAddr := nx2, nextId := s.nextId + 1, history := st1 }
        act.beforeState) := by
    rw [hrec2]
    simp only [storeUndo, hh]
  rw [hsu, hactB]
  obtain ⟨hn, he, hcfg, -, -, hheap, -, -⟩ := loadGraph_spec
    { s with heap := h2, nextAddr := nx2, nextId := s.nextId + 1, history := st1 }
    { before with nodes := bn }
  have hresbn := cloneNodes_resolve before.nodes s.heap s.nextAddr hwf
  simp only [hc1] at hresbn
  have hagree2 := cloneNodes_heap_agree after.nodes h1 nx1
  simp only [hc2] at hagree2
  have hbn2 : bn.map (resolveNode h2) = before.nodes.map (resolveNode s.heap) := by
    rw [map_resolveNode_congr bn h1 h2 nx1 hresbn.1 hagree2.2]
    exact hresbn.2
  have hnorm : bn.map (normNode h2) = before.nodes.map (normNode s.heap) :=
    map_normNode_of_map_resolveNode hbn2
  exact ⟨rfl, by rw [hheap]; rw [hn]; exact hnorm, by rw [he], hcfg⟩

/-- `updateFirstNode` is the identity when no node matches. -/
theorem updateFirstNode_no_match (ns : List PFNode) (nodeId : String) (f : PFNode → PFNode)
    (h : ∀ m ∈ ns, (m.id == nodeId) = false) :
    updateFirstNode ns nodeId f = ns := by
  induction ns with
  | nil => rfl
  | cons n rest ih =>
    unfold updateFirstNode
    rw [h n (List.mem_cons_self _ _)]
    simp only [Bool.false_eq_true, if_false]
    rw [ih (fun m hm => h m (List.mem_cons_of_mem _ hm))]

/-- With pairwise distinct node ids, erasing the first match leaves no node
with the sought id behind. -/
theorem eraseIdx_no_match (nodeId : String) : ∀ (ns : List PFNode) (i : Nat),
    (ns.map (fun n => n.id)).Nodup →
    ns.findIdx? (fun n => n.id == nodeId) = some i →
    ∀ m ∈ ns.eraseIdx i, (m.id == nodeId) = false := by
  intro ns
  induction ns with
  | nil =>
    intro i _ hfind
    cases hfind
  | cons n rest ih =>
    intro i hnd hfind
    rw [List.findIdx?_cons] at hfind
    by_cases hp : (n.id == nodeId) = true
    · rw [if_pos hp] at hfind
      have hi : i = 0 := by
        cases hfind
        rfl
      subst hi
      rw [List.eraseIdx_cons_zero]
      intro m hm
      have hnid : n.id = nodeId := by rwa [beq_iff_eq] at hp
      have hnotin : n.id ∉ rest.map (fun n => n.id) := by
        simp only [List.map_cons, List.nodup_cons] at hnd
        exact hnd.1
      rw [beq_eq_false_iff_ne]
      intro hmid
      exact hnotin (by
        rw [← hnid] at hmid
        exact hmid ▸ List.mem_map_of_mem (fun n => n.id) hm)
    · rw [if_neg hp] at hfind
      rw [show (1 : Nat) = 0 + 1 from rfl, List.findIdx?_succ] at hfind
      rcases Option.map_eq_some'.mp hfind with ⟨j, hj, hij⟩
      subst hij
      rw [List.eraseIdx_cons_succ]
      intro m hm
      rcases List.mem_cons.mp hm with hm1 | hm1
      · rw [hm1]
        exact Bool.not_eq_true _ ▸ hp
      · have hnd2 : (rest.map (fun n => n.id)).Nodup := by
          simp only [List.map_cons, List.nodup_cons] at hnd
          exact hnd.2
        exact ih j hnd2 hj m hm1

/-- Everything `deselectNode` can touch, spelled out. -/
theorem deselectNode_spec (s : PFGraphStore) (nodeId : String) :
    (deselectNode s nodeId).graph.edges = s.graph.edges ∧
    (deselectNode s nodeId).graph.config = s.graph.config ∧
    (deselectNode s nodeId).history = s.history ∧
    (deselectNode s nodeId).heap = s.heap ∧
    (deselectNode s nodeId).nextAddr = s.nextAddr ∧
    ((∀ m ∈ s.graph.nodes, (m.id == nodeId) = false) →
      (deselectNode s nodeId).graph.nodes = s.graph.nodes) ∧
    (s.selectedNodes.Nodup → nodeId ∉ (deselectNode s nodeId).selectedNodes) := by
  refine ⟨?_, ?_, ?_, ?_, ?_, ?_, ?_⟩
  · unfold deselectNode
    by_cases hm : nodeId ∈ s.selectedNodes <;> simp [hm]
  · unfold deselectNode
    by_cases hm : nodeId ∈ s.selectedNodes <;> simp [hm]
  · unfold deselectNode
    by_cases hm : nodeId ∈ s.selectedNodes <;> simp [hm]
  · unfold deselectNode
    by_cases hm : nodeId ∈ s.selectedNodes <;> simp [hm]
  · unfold deselectNode
    by_cases hm : nodeId ∈ s.selectedNodes <;> simp [hm]
  · intro h
    unfold deselectNode
    by_cases hm : nodeId ∈ s.selectedNodes
    · rw [if_pos hm]
      exact updateFirstNode_no_match s.graph.nodes nodeId _ h
    · simp [hm]
  · intro hnd
    unfold deselectNode
    by_cases hm : nodeId ∈ s.selectedNodes
    · rw [if_pos hm]
      exact hnd.not_mem_erase
    · rw [if_neg hm]
      exact hm

/-- Addresses pass through `exportGraph` unchanged. -/
theorem nodesAddrLt_export (s : PFGraphStore) (nx : Addr) :
    nodesAddrLt (exportGraph s).nodes nx = nodesAddrLt s.graph.nodes nx := by
  simp only [nodesAddrLt, exportGraph, List.all_map]
  rfl

/-- Addresses are bounded on any sublist of a bounded list. -/
theorem nodesAddrLt_of_sublist {ns ms : List PFNode} {nx : Addr}
    (hsub : ms.Sublist ns) (h : nodesAddrLt ns nx = true) :
    nodesAddrLt ms nx = true := by
  unfold nodesAddrLt at h ⊢
  rw [List.all_eq_true] at h ⊢
  exact fun m hm => h m (hsub.subset hm)

/-- C4: for a present node id, `removeNode` removes the node, removes every
edge whose source or target is that node, removes the id from the current
selection, and records exactly one combined `remove_node` action — so that
(on a well-formed store) a single `undo()` restores node and cascaded edges,
yielding the pre-operation graph modulo `selected` normalization. -/
theorem removeNode_cascades_undo (s : PFGraphStore) (nodeId : String) (i : Nat)
    (hfind : s.graph.nodes.findIdx? (fun n => n.id == nodeId) = some i)
    (hids : (s.graph.nodes.map (fun n => n.id)).Nodup)
    (hu : s.history.isUndoing = false) (hr : s.history.isRedoing = false)
    (hmax : 1 ≤ s.history.maxStackSize)
    (hsel : s.selectedNodes.Nodup) :
    (removeNode s nodeId).1 = true ∧
    (removeNode s nodeId).2.graph.nodes = s.graph.nodes.eraseIdx i ∧
    (removeNode s nodeId).2.graph.edges =
      s.graph.edges.filter
        (fun e => !(e.sourceNodeId == nodeId) && !(e.targetNodeId == nodeId)) ∧
    nodeId ∉ (removeNode s nodeId).2.selectedNodes ∧
    pushedOne s.history (removeNode s nodeId).2.history "remove_node" ∧
    (nodesAddrLt s.graph.nodes s.nextAddr = true →
      (storeUndo (removeNode s nodeId).2).1 = true ∧
      normGraph (storeUndo (removeNode s nodeId).2).2.heap
          (storeUndo (removeNode s nodeId).2).2.graph = normGraph s.heap s.graph) := by
  have hrm : removeNode s nodeId =
      (true, recordAction
        (deselectNode
          { s with graph := { s.graph with
            edges := s.graph.edges.filter
              (fun e => !(e.sourceNodeId == nodeId) && !(e.targetNodeId == nodeId)),
            nodes := s.graph.nodes.eraseIdx i } } nodeId)
        "remove_node" (exportGraph s)
        (exportGraph (deselectNode
          { s with graph := { s.graph with
            edges := s.graph.edges.filter
              (fun e => !(e.sourceNodeId == nodeId) && !(e.targetNodeId == nodeId)),
            nodes := s.graph.nodes.eraseIdx i } } nodeId))
        ("Remove node " ++ (((s.graph.nodes.get? i).map (fun n => n.title)).getD ""))) := by
    unfold removeNode
    rw [hfind]
  obtain ⟨hdE, hdC, hdH, hdHeap, hdNx, hdNodes, hdSel⟩ := deselectNode_spec
    { s with graph := { s.graph with
      edges := s.graph.edges.filter
        (fun e => !(e.sourceNodeId == nodeId) && !(e.targetNodeId == nodeId)),
      nodes := s.graph.nodes.eraseIdx i } } nodeId
  have hnomatch : ∀ m ∈ s.graph.nodes.eraseIdx i, (m.id == nodeId) = false :=
    eraseIdx_no_match nodeId s.graph.nodes i hids hfind
  have hnodes2 : (deselectNode
      { s with graph := { s.graph with
        edges := s.graph.edges.filter
          (fun e => !(e.sourceNodeId == nodeId) && !(e.targetNodeId == nodeId)),
        nodes := s.graph.nodes.eraseIdx i } } nodeId).graph.nodes =
      s.graph.nodes.eraseIdx i :=
    hdNodes hnomatch
  rw [hrm]
  refine ⟨rfl, ?_, ?_, ?_, ?_, ?_⟩
  · rw [recordAction_graph, hnodes2]
  · rw [recordAction_graph, hdE]
  · rw [recordAction_selectedNodes]
    exact hdSel hsel
  · have hph := recordAction_pushedOne
      (deselectNode
        { s with graph := { s.graph with
          edges := s.graph.edges.filter
            (fun e => !(e.sourceNodeId == nodeId) && !(e.targetNodeId == nodeId)),
          nodes := s.graph.nodes.eraseIdx i } } nodeId)
      "remove_node" (exportGraph s)
      (exportGraph (deselectNode
        { s with graph := { s.graph with
          edges := s.graph.edges.filter
            (fun e => !(e.sourceNodeId == nodeId) && !(e.targetNodeId == nodeId)),
          nodes := s.graph.nodes.eraseIdx i } } nodeId))
      ("Remove node " ++ (((s.graph.nodes.get? i).map (fun n => n.title)).getD ""))
      (by rw [hdH]; exact hu) (by rw [hdH]; exact hr)
    rw [hdH] at hph
    exact hph
  · intro hwf
    have hundo := recordAction_then_undo
      (deselectNode
        { s with graph := { s.graph with
          edges := s.graph.edges.filter
            (fun e => !(e.sourceNodeId == nodeId) && !(e.targetNodeId == nodeId)),
          nodes := s.graph.nodes.eraseIdx i } } nodeId)
      "remove_node" (exportGraph s)
      (exportGraph (deselectNode
        { s with graph := { s.graph with
          edges := s.graph.edges.filter
            (fun e => !(e.sourceNodeId == nodeId) && !(e.targetNodeId == nodeId)),
          nodes := s.graph.nodes.eraseIdx i } } nodeId))
      ("Remove node " ++ (((s.graph.nodes.get? i).map (fun n => n.title)).getD ""))
      (by rw [hdH]; exact hu) (by rw [hdH]; exact hr) (by rw [hdH]; exact hmax)
      (by rw [hdNx, nodesAddrLt_export]; exact hwf)
    obtain ⟨hok, hnodes, hedges, hconfig⟩ := hundo
    refine ⟨hok, ?_⟩
    unfold normGraph
    rw [hdHeap] at hnodes
    rw [hnodes, hedges, hconfig, hdC]
    rw [map_normNode_exportGraph, map_normEdge_exportGraph]

/-- C4 witness: the spec scenario — a store holding selected node `a1` (two
ports across the pair, one edge touching `a1`); `removeNode("a1")` removes
the node and the edge in one recorded action, drops `a1` from the selection,
and a single `undo()` restores the original graph modulo `selected`
normalization. -/
theorem removeNode_cascades_undo_witness :
    (removeNode twoNodeStoreSel "a1").1 = true ∧
    (removeNode twoNodeStoreSel "a1").2.graph.nodes = [nodeB] ∧
    (removeNode twoNodeStoreSel "a1").2.graph.edges = [] ∧
    "a1" ∉ (removeNode twoNodeStoreSel "a1").2.selectedNodes ∧
    pushedOne twoNodeStoreSel.history (removeNode twoNodeStoreSel "a1").2.history
      "remove_node" ∧
    (storeUndo (removeNode twoNodeStoreSel "a1").2).1 = true ∧
    normGraph (storeUndo (removeNode twoNodeStoreSel "a1").2).2.heap
        (storeUndo (removeNode twoNodeStoreSel "a1").2).2.graph =
      normGraph twoNodeStoreSel.heap twoNodeStoreSel.graph := by
  obtain ⟨h1, h2, h3, h4, h5, h6⟩ := removeNode_cascades_undo twoNodeStoreSel "a1" 0
    (by decide) (by decide) rfl rfl (by decide) (by decide)
  obtain ⟨h7, h8⟩ := h6 (by decide)
  exact ⟨h1, h2, h3, h4, h5, h7, h8⟩

end Primeflow
